import Mathlib

/-!
Verification of the Jones-term composition engine in
`src/africanus/rime/predict.py` (`predict_vis` and its kernel factories).

The embedding models:
* the validation / specialization phase of `predict_vis`
  (pairing checks, dtype promotion, ndim checks, correlation
  classification, output allocation) over an abstract input signature;
* the numerical phase (`sum_coherencies`, `add_coh`, `apply_dies` and the
  `jones_mul` kernel family) over tensors represented as total functions
  together with explicit extents, with complex floating point arithmetic
  modelled as exact arithmetic in a commutative star ring.

Array axes are `Nat`-indexed except the time axis of `dde`/`die` tensors,
which is `Int`-indexed because the code indexes it with the rebased
(possibly, in principle, negative) integer `time_index[r] - tmin`.
-/

namespace Predict

/-- Numpy dtypes of the complex-valued inputs (`np.complex64` /
`np.complex128`). -/
inductive Dtype
  | c64
  | c128
deriving DecidableEq

/-- Numpy type promotion between complex dtypes: `np.result_type` of two
complex dtypes is the wider of the two. -/
def Dtype.promote : Dtype → Dtype → Dtype
  | .c64, .c64 => .c64
  | _, _ => .c128

/-- Model of `np.result_type(*dtypes)` over the present arrays
(predict.py lines 349-351): `none` when no array is present (numpy raises
in that case). -/
def resultType : List Dtype → Option Dtype
  | [] => none
  | d :: ds => some (ds.foldl Dtype.promote d)

/-- Error taxonomy of `predict_vis`: each constructor corresponds to one
`ValueError` raise site in predict.py. -/
inductive PErr
  /-- "Both dde1_jones and dde2_jones must be present or absent" (line 337). -/
  | pairingDDE
  /-- "Both die1_jones and die2_jones must be present or absent" (line 341). -/
  | pairingDIE
  /-- `np.result_type()` with no arguments raises (line 349, all six absent). -/
  | resultTypeNoArrays
  /-- "%s.ndim %d not in ..." explicit rank checks (lines 359-375). -/
  | ndimNotIn (name : String)
  /-- "%s.ndim not in (%d, %d)" raised by `_get_jones_types` (line 61). -/
  | classifyNdim (name : String)
  /-- "Jones Matrix Correlations were mismatched" (line 387). -/
  | corrMismatch
  /-- "No Jones Matrices were supplied" (line 392). -/
  | noJonesTerms
  /-- "Insufficient inputs were supplied for determining the output shape"
  raised by `output_factory` (line 259). -/
  | insufficientInputs
deriving DecidableEq

/-- Result of `_get_jones_types`: `JONES_NOT_PRESENT = 0`,
`JONES_1_OR_2 = 1`, `JONES_2X2 = 2`. -/
inductive JonesTy
  | notPresent
  | oneOrTwo
  | twoByTwo
deriving DecidableEq

/-- Signature of one optional array argument: its full shape and dtype.
Only this data (never element values) is consulted during validation. -/
structure ArrSig where
  shape : List Nat
  dtype : Dtype
deriving DecidableEq

/-- Number of dimensions of an array. -/
def ArrSig.ndim (a : ArrSig) : Nat := a.shape.length

/-- Call signature of `predict_vis`: the row count of the required
`time_index`/`antenna1`/`antenna2` arrays and the signature (or absence)
of each of the six optional tensors, in the positional order of
predict.py. -/
structure Sig where
  nrow : Nat
  dde1_jones : Option ArrSig
  source_coh : Option ArrSig
  dde2_jones : Option ArrSig
  die1_jones : Option ArrSig
  base_vis : Option ArrSig
  die2_jones : Option ArrSig
deriving DecidableEq

/-- Explicit ndim admissibility test used by the checks at
predict.py lines 359-375 (`a.ndim not in (c1, c2)` on present arrays). -/
def ndimOk (a : Option ArrSig) (c1 c2 : Nat) : Bool :=
  match a with
  | none => true
  | some t => t.ndim == c1 || t.ndim == c2

/-- Embedding of `_get_jones_types(name, typ, corr_1_dims, corr_2_dims)`
(predict.py lines 23-62). -/
def getJonesTypes (name : String) (a : Option ArrSig) (corr_1_dims corr_2_dims : Nat) :
    Except PErr JonesTy :=
  match a with
  | none => .ok .notPresent
  | some t =>
    if t.ndim = corr_1_dims then .ok .oneOrTwo
    else if t.ndim = corr_2_dims then .ok .twoByTwo
    else .error (.classifyNdim name)

/-- Dtype list contribution of one optional array (used to mirror the
generator at predict.py lines 349-351). -/
def pdtype (a : Option ArrSig) : List Dtype :=
  match a with
  | none => []
  | some t => [t.dtype]

/-- Embedding of the validation / specialization phase of `predict_vis`
(predict.py lines 326-392), in the exact order of the source: DDE pairing
check, DIE pairing check, output dtype promotion, explicit ndim checks,
correlation classification, correlation mismatch check, and the
no-Jones-terms check.  On success it returns the common Jones type and
the promoted output dtype. -/
def validate (s : Sig) : Except PErr (JonesTy × Dtype) :=
  if s.dde1_jones.isSome ≠ s.dde2_jones.isSome then .error .pairingDDE
  else if s.die1_jones.isSome ≠ s.die2_jones.isSome then .error .pairingDIE
  else
    match resultType (pdtype s.dde1_jones ++ pdtype s.source_coh ++
                      pdtype s.dde2_jones ++ pdtype s.die1_jones ++
                      pdtype s.base_vis ++ pdtype s.die2_jones) with
    | none => .error .resultTypeNoArrays
    | some out_dtype =>
      if ¬ ndimOk s.dde1_jones 5 6 then .error (.ndimNotIn "dde1_jones")
      else if ¬ ndimOk s.dde2_jones 5 6 then .error (.ndimNotIn "dde2_jones")
      else if ¬ ndimOk s.source_coh 4 5 then .error (.ndimNotIn "source_coh")
      else if ¬ ndimOk s.die1_jones 4 5 then .error (.ndimNotIn "die1_jones")
      else if ¬ ndimOk s.die2_jones 4 5 then .error (.ndimNotIn "die2_jones")
      else
        match getJonesTypes "dde1_jones" s.dde1_jones 5 6,
              getJonesTypes "source_coh" s.source_coh 4 5,
              getJonesTypes "dde2_jones" s.dde2_jones 5 6,
              getJonesTypes "die1_jones" s.die1_jones 4 5,
              getJonesTypes "die2_jones" s.die2_jones 4 5 with
        | .ok t1, .ok t2, .ok t3, .ok t4, .ok t5 =>
          match [t1, t2, t3, t4, t5].filter (fun t => t ≠ .notPresent) with
          | [] => .error .noJonesTerms
          | p :: rest =>
            if rest.all (fun q => q = p) then .ok (p, out_dtype)
            else .error .corrMismatch
        | .error e, _, _, _, _ => .error e
        | _, .error e, _, _, _ => .error e
        | _, _, .error e, _, _ => .error e
        | _, _, _, .error e, _ => .error e
        | _, _, _, _, .error e => .error e

/-- A `dde{1,2}_jones` tensor: extents of the
`(source, time, ant, chan)` axes, the element dtype, and the element data
(a single correlation value of type `V` per index).  The time axis is
`Int`-indexed because the code indexes it with the rebased integer
`time_index[r] - tmin`. -/
structure DDET (V : Type) where
  nsrc : Nat
  ntime : Nat
  nant : Nat
  nchan : Nat
  dtype : Dtype
  data : Nat → Int → Nat → Nat → V

/-- A `source_coh` tensor over `(source, row, chan)`. -/
structure CohT (V : Type) where
  nsrc : Nat
  nrow : Nat
  nchan : Nat
  dtype : Dtype
  data : Nat → Nat → Nat → V

/-- A `die{1,2}_jones` tensor over `(time, ant, chan)`. -/
structure DIET (V : Type) where
  ntime : Nat
  nant : Nat
  nchan : Nat
  dtype : Dtype
  data : Int → Nat → Nat → V

/-- A visibility array over `(row, chan)`: used for `base_vis` and for the
output buffer created by `output_factory`. -/
structure VisT (V : Type) where
  nrow : Nat
  nchan : Nat
  dtype : Dtype
  data : Nat → Nat → V

/-- Typed arguments of a `predict_vis` call, after the pairing invariants
hold: the paired `dde`/`die` tensors are carried as a single `Option` of a
pair, all tensors share the correlation value type `V`. -/
structure PInputs (V : Type) where
  nrow : Nat
  time_index : Nat → Int
  antenna1 : Nat → Nat
  antenna2 : Nat → Nat
  dde_jones : Option (DDET V × DDET V)
  source_coh : Option (CohT V)
  die_jones : Option (DIET V × DIET V)
  base_vis : Option (VisT V)

/-- The kernel family produced by `jones_mul_factory` for one correlation
classification, plus the zero element (`np.zeros`) and the elementwise
addition (`+=` on numpy subarrays).  The `Bool` argument of the multiply
kernels is the `accumulate` specialization flag. -/
structure Kernels (V : Type) where
  zero : V
  add : V → V → V
  jones_mul_3 : Bool → V → V → V → V → V
  jones_mul_2 : Bool → V → V → V → V

/-- Model of `time_index.min()` over the first `n` rows (predict.py
line 410). For `n ≥ 1` this is the minimum of `f 0 ... f (n-1)`. -/
def npMin (f : Nat → Int) (n : Nat) : Int :=
  (List.range n).foldl (fun m r => min m (f r)) (f 0)

/-- Embedding of the four loop shapes produced by
`sum_coherencies_factory` (predict.py lines 196-232).  Each writes only
`out[r, f]` entries, so the in-place accumulation is modelled per entry as
a left fold over the source axis in source order; loop bounds are taken
from the same arrays as in the source (`a1j.shape[0]` / `a1j.shape[3]` in
the antenna branches, `blj.shape` in the baseline-only branch, the row
loop from `enumerate(zip(time, ant1, ant2))`). -/
def sum_coherencies {V : Type} (K : Kernels V) (nrow : Nat)
    (time : Nat → Int) (ant1 ant2 : Nat → Nat)
    (dde : Option (DDET V × DDET V)) (coh : Option (CohT V))
    (tmin : Int) (out : VisT V) : VisT V :=
  match dde, coh with
  | some (a1j, a2j), some blj =>
    { out with
      data := fun r f =>
        if r < nrow ∧ f < a1j.nchan then
          (List.range a1j.nsrc).foldl
            (fun acc s =>
              K.jones_mul_3 true
                (a1j.data s (time r - tmin) (ant1 r) f)
                (blj.data s r f)
                (a2j.data s (time r - tmin) (ant2 r) f) acc)
            (out.data r f)
        else out.data r f }
  | some (a1j, a2j), none =>
    { out with
      data := fun r f =>
        if r < nrow ∧ f < a1j.nchan then
          (List.range a1j.nsrc).foldl
            (fun acc s =>
              K.jones_mul_2 true
                (a1j.data s (time r - tmin) (ant1 r) f)
                (a2j.data s (time r - tmin) (ant2 r) f) acc)
            (out.data r f)
        else out.data r f }
  | none, some blj =>
    { out with
      data := fun r f =>
        if r < blj.nrow ∧ f < blj.nchan then
          (List.range blj.nsrc).foldl
            (fun acc s => K.add acc (blj.data s r f))
            (out.data r f)
        else out.data r f }
  | none, none => out

/-- Embedding of `add_coh_factory` (predict.py lines 265-274):
`out += base_vis` over the full extent of `out` when `base_vis` is
present, a no-op otherwise. -/
def add_coh {V : Type} (K : Kernels V) (bvis : Option (VisT V))
    (out : VisT V) : VisT V :=
  match bvis with
  | some bv =>
    { out with
      data := fun r f =>
        if r < out.nrow ∧ f < out.nchan then
          K.add (out.data r f) (bv.data r f)
        else out.data r f }
  | none => out

/-- Embedding of `apply_dies_factory` (predict.py lines 277-319): for each
row and channel, the three-term assign kernel is invoked with the running
visibility `out[r, c]` bound to the baseline argument and to the
destination (the two `have_coh` branches of the source are identical). -/
def apply_dies {V : Type} (K : Kernels V) (nrow : Nat)
    (time : Nat → Int) (ant1 ant2 : Nat → Nat)
    (die : Option (DIET V × DIET V)) (tmin : Int) (out : VisT V) : VisT V :=
  match die with
  | some (g1, g2) =>
    { out with
      data := fun r c =>
        if r < nrow ∧ c < out.nchan then
          K.jones_mul_3 false
            (g1.data (time r - tmin) (ant1 r) c)
            (out.data r c)
            (g2.data (time r - tmin) (ant2 r) c)
            (out.data r c)
        else out.data r c }
  | none => out

/-- Embedding of `output_factory` (predict.py lines 235-262): the output
buffer is zero-filled with `row` taken from `time_index`, and `chan` and
the correlation shape taken from `dde1_jones` if the antenna terms are
present, else from `source_coh`, else from `die1_jones`; `none` models the
"Insufficient inputs" `ValueError` when none of the three groups is
present. -/
def output {V : Type} (K : Kernels V) (i : PInputs V) (dt : Dtype) :
    Option (VisT V) :=
  match i.dde_jones with
  | some (a1j, _) => some ⟨i.nrow, a1j.nchan, dt, fun _ _ => K.zero⟩
  | none =>
    match i.source_coh with
    | some c => some ⟨i.nrow, c.nchan, dt, fun _ _ => K.zero⟩
    | none =>
      match i.die_jones with
      | some (g1, _) => some ⟨i.nrow, g1.nchan, dt, fun _ _ => K.zero⟩
      | none => none

/-- Embedding of the body of `_predict_vis_fn` (predict.py lines 400-425)
after output allocation: compute the minimum time index, sum coherencies,
add base visibilities, apply direction independent effects. -/
def predictBody {V : Type} (K : Kernels V) (i : PInputs V) (out : VisT V) :
    VisT V :=
  let tmin := npMin i.time_index i.nrow
  let out1 := sum_coherencies K i.nrow i.time_index i.antenna1 i.antenna2
                i.dde_jones i.source_coh tmin out
  let out2 := add_coh K i.base_vis out1
  apply_dies K i.nrow i.time_index i.antenna1 i.antenna2 i.die_jones tmin out2

/-- Shape of a `dde` tensor given the trailing correlation shape `cs`. -/
def ddeShape (cs : List Nat) (a : DDET V) : List Nat :=
  [a.nsrc, a.ntime, a.nant, a.nchan] ++ cs

/-- Shape of a `source_coh` tensor. -/
def cohShape (cs : List Nat) (c : CohT V) : List Nat :=
  [c.nsrc, c.nrow, c.nchan] ++ cs

/-- Shape of a `die` tensor. -/
def dieShape (cs : List Nat) (g : DIET V) : List Nat :=
  [g.ntime, g.nant, g.nchan] ++ cs

/-- Shape of a `base_vis` tensor. -/
def visShape (cs : List Nat) (b : VisT V) : List Nat :=
  [b.nrow, b.nchan] ++ cs

/-- The call signature seen by the validation phase for typed inputs
whose correlation axes have shape `cs`. -/
def sigOf {V : Type} (cs : List Nat) (i : PInputs V) : Sig where
  nrow := i.nrow
  dde1_jones := i.dde_jones.map (fun p => ⟨ddeShape cs p.1, p.1.dtype⟩)
  source_coh := i.source_coh.map (fun c => ⟨cohShape cs c, c.dtype⟩)
  dde2_jones := i.dde_jones.map (fun p => ⟨ddeShape cs p.2, p.2.dtype⟩)
  die1_jones := i.die_jones.map (fun p => ⟨dieShape cs p.1, p.1.dtype⟩)
  base_vis := i.base_vis.map (fun b => ⟨visShape cs b, b.dtype⟩)
  die2_jones := i.die_jones.map (fun p => ⟨dieShape cs p.2, p.2.dtype⟩)

/-- Dtypes of the present optional tensors in the order of the
`dtype_arrays` tuple at predict.py line 346. -/
def presentDtypes {V : Type} (i : PInputs V) : List Dtype :=
  (match i.dde_jones with | some p => [p.1.dtype] | none => []) ++
  (match i.source_coh with | some c => [c.dtype] | none => []) ++
  (match i.dde_jones with | some p => [p.2.dtype] | none => []) ++
  (match i.die_jones with | some p => [p.1.dtype] | none => []) ++
  (match i.base_vis with | some b => [b.dtype] | none => []) ++
  (match i.die_jones with | some p => [p.2.dtype] | none => [])

/-- Full embedding of `predict_vis` on typed inputs: run the validation
phase on the call signature, allocate the output buffer (failing with the
allocator's "Insufficient inputs" error when no shape-carrying group is
present), then execute the numerical body. -/
def predict_vis {V : Type} (cs : List Nat) (K : Kernels V) (i : PInputs V) :
    Except PErr (VisT V) :=
  match validate (sigOf cs i) with
  | .error e => .error e
  | .ok (_, dt) =>
    match output K i dt with
    | none => .error .insufficientInputs
    | some out0 => .ok (predictBody K i out0)

/-- A 2x2 correlation matrix (the `(2, 2)` trailing dims of a tensor), with
entries named after the code's `xx/xy/yx/yy` convention:
`xx = m[0,0]`, `xy = m[0,1]`, `yx = m[1,0]`, `yy = m[1,1]`. -/
structure Mat2 (R : Type) where
  xx : R
  xy : R
  yx : R
  yy : R
deriving DecidableEq

section MatrixKernels

variable {R : Type} [CommRing R] [StarRing R]

/-- Embedding of the three-term `JONES_2X2` kernel of `jones_mul_factory`
(predict.py lines 109-129), `accumulate` as in the source.  Note the
source conjugates `a2j` entry by entry without transposing:
`a2_xy_H = conj(a2j[0, 1])`. -/
def jones_mul_3_mat (accumulate : Bool) (a1j blj a2j out : Mat2 R) : Mat2 R :=
  let a2_xx_H := star a2j.xx
  let a2_xy_H := star a2j.xy
  let a2_yx_H := star a2j.yx
  let a2_yy_H := star a2j.yy
  let xx := blj.xx * a2_xx_H + blj.xy * a2_yx_H
  let xy := blj.xx * a2_xy_H + blj.xy * a2_yy_H
  let yx := blj.yx * a2_xx_H + blj.yy * a2_yx_H
  let yy := blj.yx * a2_xy_H + blj.yy * a2_yy_H
  if accumulate then
    ⟨out.xx + (a1j.xx * xx + a1j.xy * yx),
     out.xy + (a1j.xx * xy + a1j.xy * yy),
     out.yx + (a1j.yx * xx + a1j.yy * yx),
     out.yy + (a1j.yx * xy + a1j.yy * yy)⟩
  else
    ⟨a1j.xx * xx + a1j.xy * yx,
     a1j.xx * xy + a1j.xy * yy,
     a1j.yx * xx + a1j.yy * yx,
     a1j.yx * xy + a1j.yy * yy⟩

/-- Embedding of the two-term `JONES_2X2` kernel of `jones_mul_factory`
(predict.py lines 143-158).  The source uses `+=` in BOTH branches of the
`if accumulate:` conditional (lines 150-158), so the `accumulate = False`
specialization also accumulates instead of assigning, contradicting the
factory's own docstring ("otherwise, it is assigned"). -/
def jones_mul_2_mat (accumulate : Bool) (a1j a2j out : Mat2 R) : Mat2 R :=
  let a2_xx_H := star a2j.xx
  let a2_xy_H := star a2j.xy
  let a2_yx_H := star a2j.yx
  let a2_yy_H := star a2j.yy
  if accumulate then
    ⟨out.xx + (a1j.xx * a2_xx_H + a1j.xy * a2_yx_H),
     out.xy + (a1j.xx * a2_xy_H + a1j.xy * a2_yy_H),
     out.yx + (a1j.yx * a2_xx_H + a1j.yy * a2_yx_H),
     out.yy + (a1j.yx * a2_xy_H + a1j.yy * a2_yy_H)⟩
  else
    ⟨out.xx + (a1j.xx * a2_xx_H + a1j.xy * a2_yx_H),
     out.xy + (a1j.xx * a2_xy_H + a1j.xy * a2_yy_H),
     out.yx + (a1j.yx * a2_xx_H + a1j.yy * a2_yx_H),
     out.yy + (a1j.yx * a2_xy_H + a1j.yy * a2_yy_H)⟩

/-- Elementwise addition of 2x2 correlation matrices (numpy `+=` on a
`(2, 2)` subarray). -/
def Mat2.addE (a b : Mat2 R) : Mat2 R :=
  ⟨a.xx + b.xx, a.xy + b.xy, a.yx + b.yx, a.yy + b.yy⟩

/-- The kernel family selected for the `JONES_2X2` classification. -/
def matKernels (R : Type) [CommRing R] [StarRing R] : Kernels (Mat2 R) where
  zero := ⟨0, 0, 0, 0⟩
  add := Mat2.addE
  jones_mul_3 := jones_mul_3_mat
  jones_mul_2 := jones_mul_2_mat

/-- Embedding of the three-term `JONES_1_OR_2` kernel of
`jones_mul_factory` (predict.py lines 101-106): a loop
`for c in range(out.shape[0])` over the correlation axis; `ncorr` stands
for `out.shape[0]`. -/
def jones_mul_3_vec (ncorr : Nat) (accumulate : Bool)
    (a1j blj a2j out : Nat → R) : Nat → R :=
  fun c =>
    if c < ncorr then
      if accumulate then out c + a1j c * blj c * star (a2j c)
      else a1j c * blj c * star (a2j c)
    else out c

/-- Embedding of the two-term `JONES_1_OR_2` kernel of `jones_mul_factory`
(predict.py lines 135-140). -/
def jones_mul_2_vec (ncorr : Nat) (accumulate : Bool)
    (a1j a2j out : Nat → R) : Nat → R :=
  fun c =>
    if c < ncorr then
      if accumulate then out c + a1j c * star (a2j c)
      else a1j c * star (a2j c)
    else out c

/-- Elementwise addition over a `(ncorr,)` correlation axis (numpy `+=`
on a `(1,)` or `(2,)` subarray). -/
def vecAdd (ncorr : Nat) (a b : Nat → R) : Nat → R :=
  fun c => if c < ncorr then a c + b c else a c

/-- The kernel family selected for the `JONES_1_OR_2` classification with
correlation extent `ncorr` (1 or 2). -/
def vecKernels (R : Type) [CommRing R] [StarRing R] (ncorr : Nat) :
    Kernels (Nat → R) where
  zero := fun _ => 0
  add := vecAdd ncorr
  jones_mul_3 := jones_mul_3_vec ncorr
  jones_mul_2 := jones_mul_2_vec ncorr

/-- View of a `Mat2` as a Mathlib matrix, used to state the contraction
formula of the specification. -/
def Mat2.toM (m : Mat2 R) : Matrix (Fin 2) (Fin 2) R :=
  Matrix.of ![![m.xx, m.xy], ![m.yx, m.yy]]

/-- Elementwise conjugation of a matrix (no transposition). -/
def conjE (M : Matrix (Fin 2) (Fin 2) R) : Matrix (Fin 2) (Fin 2) R :=
  M.map star

/-- Elementwise conjugation of a 2x2 matrix literal. -/
theorem conjE_lit (a b c d : R) :
    conjE (Matrix.of ![![a, b], ![c, d]]) =
      Matrix.of ![![star a, star b], ![star c, star d]] := by
  ext i j
  fin_cases i <;> fin_cases j <;> rfl

/-- The accumulating three-term 2x2 kernel adds the product
`a1j * (blj * conj(a2j))` (elementwise conjugate, no transpose) to the
destination. -/
theorem jones_mul_3_mat_true_toM (a1j blj a2j out : Mat2 R) :
    (jones_mul_3_mat true a1j blj a2j out).toM =
      out.toM + a1j.toM * blj.toM * conjE a2j.toM := by
  simp only [jones_mul_3_mat, Mat2.toM, conjE_lit, Matrix.mul_fin_two]
  ext i j
  fin_cases i <;> fin_cases j <;> simp <;> ring

/-- The assigning three-term 2x2 kernel overwrites the destination with
`a1j * (blj * conj(a2j))`. -/
theorem jones_mul_3_mat_false_toM (a1j blj a2j out : Mat2 R) :
    (jones_mul_3_mat false a1j blj a2j out).toM =
      a1j.toM * blj.toM * conjE a2j.toM := by
  simp only [jones_mul_3_mat, Mat2.toM, conjE_lit, Matrix.mul_fin_two]
  ext i j
  fin_cases i <;> fin_cases j <;> simp <;> ring

/-- The accumulating two-term 2x2 kernel adds `a1j * conj(a2j)` to the
destination. -/
theorem jones_mul_2_mat_true_toM (a1j a2j out : Mat2 R) :
    (jones_mul_2_mat true a1j a2j out).toM =
      out.toM + a1j.toM * conjE a2j.toM := by
  simp only [jones_mul_2_mat, Mat2.toM, conjE_lit, Matrix.mul_fin_two]
  ext i j
  fin_cases i <;> fin_cases j <;> simp

omit [StarRing R] in
/-- Elementwise `Mat2` addition agrees with matrix addition. -/
theorem Mat2.addE_toM (a b : Mat2 R) : (a.addE b).toM = a.toM + b.toM := by
  ext i j
  fin_cases i <;> fin_cases j <;> rfl

/-- The zero buffer element of the 2x2 world is the zero matrix. -/
theorem matKernels_zero_toM :
    ((matKernels R).zero).toM = (0 : Matrix (Fin 2) (Fin 2) R) := by
  ext i j
  fin_cases i <;> fin_cases j <;> rfl

/-- Elementwise conjugation fixes the identity matrix. -/
theorem conjE_one : conjE (1 : Matrix (Fin 2) (Fin 2) R) = 1 := by
  ext i j
  fin_cases i <;> fin_cases j <;> simp [conjE]

end MatrixKernels

/-- Folding an addition-shaped step over `List.range n`, viewed through a
projection `φ`, is adding the `Finset.range` sum of the per-step
contributions. -/
theorem foldl_hom_add {M N : Type} [AddCommMonoid N] (φ : M → N)
    (f : M → Nat → M) (g : Nat → N)
    (hf : ∀ m s, φ (f m s) = φ m + g s) (x : M) (n : Nat) :
    φ ((List.range n).foldl f x) = φ x + ∑ s ∈ Finset.range n, g s := by
  induction n with
  | zero => simp
  | succ n ih =>
    rw [List.range_succ, List.foldl_append, List.foldl_cons, List.foldl_nil,
      hf, ih, Finset.sum_range_succ, add_assoc]

/-- Folding a shifted running minimum from a shifted seed shifts the
result. -/
theorem foldl_min_shift (f : Nat → Int) (k : Int) :
    ∀ (l : List Nat) (m : Int),
      l.foldl (fun m r => min m (f r + k)) (m + k) =
        l.foldl (fun m r => min m (f r)) m + k := by
  intro l
  induction l with
  | nil => intro m; simp
  | cons a l ih =>
    intro m
    rw [List.foldl_cons, List.foldl_cons]
    have h : min (m + k) (f a + k) = min m (f a) + k := by omega
    rw [h, ih]

/-- Shifting every time value by a constant shifts the minimum by the same
constant. -/
theorem npMin_shift (f : Nat → Int) (k : Int) (n : Nat) :
    npMin (fun r => f r + k) n = npMin f n + k :=
  foldl_min_shift f k (List.range n) (f 0)

instance {ε α : Type} [DecidableEq ε] [DecidableEq α] : DecidableEq (Except ε α) :=
  fun a b =>
    match a, b with
    | .error e, .error f => decidable_of_iff (e = f) ⟨by rintro rfl; rfl, Except.error.inj⟩
    | .error _, .ok _ => isFalse Except.noConfusion
    | .ok _, .error _ => isFalse Except.noConfusion
    | .ok x, .ok y => decidable_of_iff (x = y) ⟨by rintro rfl; rfl, Except.ok.inj⟩

/-- On a present argument `_get_jones_types` can only fail with its own
ndim error. -/
theorem getJonesTypes_error (name : String) (a : Option ArrSig) (c1 c2 : Nat)
    (e : PErr) (h : getJonesTypes name a c1 c2 = .error e) :
    e = .classifyNdim name := by
  cases a with
  | none =>
    simp only [getJonesTypes] at h
    exact absurd h (by simp)
  | some t =>
    simp only [getJonesTypes] at h
    by_cases h1 : t.ndim = c1
    · rw [if_pos h1] at h
      exact absurd h (by simp)
    · rw [if_neg h1] at h
      by_cases h2 : t.ndim = c2
      · rw [if_pos h2] at h
        exact absurd h (by simp)
      · rw [if_neg h2] at h
        exact (Except.error.inj h).symm

/-- A nonempty dtype list always promotes to some dtype. -/
theorem resultType_isSome (l : List Dtype) (h : l ≠ []) :
    ∃ d, resultType l = some d := by
  cases l with
  | nil => exact absurd rfl h
  | cons d ds => exact ⟨ds.foldl Dtype.promote d, rfl⟩

/-- If some optional tensor is present, the promoted dtype list of the six
arguments is nonempty. -/
theorem dtypeList_ne_nil (s : Sig)
    (h : s.dde1_jones.isSome = true ∨ s.source_coh.isSome = true ∨
         s.dde2_jones.isSome = true ∨ s.die1_jones.isSome = true ∨
         s.base_vis.isSome = true ∨ s.die2_jones.isSome = true) :
    pdtype s.dde1_jones ++ pdtype s.source_coh ++ pdtype s.dde2_jones ++
      pdtype s.die1_jones ++ pdtype s.base_vis ++ pdtype s.die2_jones ≠ [] := by
  rcases h with h | h | h | h | h | h <;>
    [rcases Option.isSome_iff_exists.mp h with ⟨t, ht⟩;
     rcases Option.isSome_iff_exists.mp h with ⟨t, ht⟩;
     rcases Option.isSome_iff_exists.mp h with ⟨t, ht⟩;
     rcases Option.isSome_iff_exists.mp h with ⟨t, ht⟩;
     rcases Option.isSome_iff_exists.mp h with ⟨t, ht⟩;
     rcases Option.isSome_iff_exists.mp h with ⟨t, ht⟩] <;>
    simp [pdtype, ht]

/-- If `_get_jones_types` classifies a tensor as present, the tensor is
present. -/
theorem getJonesTypes_present (name : String) (a : Option ArrSig)
    (c1 c2 : Nat) (t : JonesTy) (h : getJonesTypes name a c1 c2 = .ok t)
    (hne : t ≠ .notPresent) : a.isSome = true := by
  cases a with
  | none =>
    simp only [getJonesTypes] at h
    exact absurd (Except.ok.inj h).symm hne
  | some v => rfl

/-- A list with a head and two distinct members cannot have every tail
element equal to the head. -/
theorem not_all_eq_head {α : Type} [DecidableEq α] (p : α) (rest : List α)
    (a b : α) (ha : a ∈ p :: rest) (hb : b ∈ p :: rest) (hab : a ≠ b) :
    rest.all (fun q => q = p) = false := by
  by_contra hcon
  have hall : rest.all (fun q => q = p) = true := by
    cases hrest : rest.all (fun q => q = p) with
    | false => exact absurd hrest hcon
    | true => rfl
  have hmem : ∀ q ∈ p :: rest, q = p := by
    intro q hq
    rcases List.mem_cons.mp hq with rfl | hq'
    · rfl
    · exact of_decide_eq_true (List.all_eq_true.mp hall q hq')
  exact hab ((hmem a ha).trans (hmem b hb).symm)

/-- Successful classification implies the explicit ndim check passes. -/
theorem getJonesTypes_ndimOk (name : String) (a : Option ArrSig)
    (c1 c2 : Nat) (t : JonesTy) (h : getJonesTypes name a c1 c2 = .ok t) :
    ndimOk a c1 c2 = true := by
  cases a with
  | none => rfl
  | some v =>
    simp only [getJonesTypes] at h
    unfold ndimOk
    by_cases h1 : v.ndim = c1
    · simp [h1]
    · rw [if_neg h1] at h
      by_cases h2 : v.ndim = c2
      · simp [h2]
      · rw [if_neg h2] at h
        exact absurd h (by simp)

/-- C3: if exactly one member of the `dde1_jones`/`dde2_jones` pair, or
exactly one member of the `die1_jones`/`die2_jones` pair, is present, then
`predict_vis` validation fails with a pairing error, whatever the other
arguments are, and no output is produced. -/
theorem predict_vis_pairing_error (s : Sig)
    (h : s.dde1_jones.isSome ≠ s.dde2_jones.isSome ∨
         s.die1_jones.isSome ≠ s.die2_jones.isSome) :
    validate s = .error .pairingDDE ∨ validate s = .error .pairingDIE := by
  unfold validate
  by_cases h1 : s.dde1_jones.isSome ≠ s.dde2_jones.isSome
  · left
    rw [if_pos h1]
  · right
    rcases h with h | h2
    · exact absurd h h1
    · rw [if_neg h1, if_pos h2]

/-- A call signature with only `dde1_jones` present. -/
def sigSingleDde : Sig where
  nrow := 10
  dde1_jones := some ⟨[2, 4, 4, 5, 2, 2], .c128⟩
  source_coh := none
  dde2_jones := none
  die1_jones := none
  base_vis := none
  die2_jones := none

/-- Witness for C3 at a concrete signature carrying only `dde1_jones`. -/
theorem predict_vis_pairing_error_witness :
    (sigSingleDde.dde1_jones.isSome ≠ sigSingleDde.dde2_jones.isSome ∨
     sigSingleDde.die1_jones.isSome ≠ sigSingleDde.die2_jones.isSome) ∧
      (validate sigSingleDde = .error .pairingDDE ∨
       validate sigSingleDde = .error .pairingDIE) :=
  ⟨Or.inl (by decide), predict_vis_pairing_error sigSingleDde (Or.inl (by decide))⟩

/-- A call signature mixing a `(1,)`-correlation `source_coh` with a
`(2, 2)`-correlation `base_vis`. -/
def sigMixedBaseVis : Sig where
  nrow := 10
  dde1_jones := none
  source_coh := some ⟨[2, 10, 5, 1], .c128⟩
  dde2_jones := none
  die1_jones := none
  base_vis := some ⟨[10, 5, 2, 2], .c128⟩
  die2_jones := none

/-- C4 counterexample: a `(1,)`-correlation `source_coh` together with a
`(2, 2)`-correlation `base_vis` passes validation, because `base_vis` is
never classified (its ndim check at predict.py lines 371-372 is commented
out and it is excluded from the `jones_types` list at lines 377-382), so
the claimed shape-mismatch failure does not occur. -/
theorem mixed_base_vis_corr_accepted_cex :
    validate sigMixedBaseVis = .ok (.oneOrTwo, .c128) ∧
      validate sigMixedBaseVis ≠ .error .corrMismatch := by
  constructor
  · rfl
  · decide

/-- C4 (amended): among the five classified tensors (`dde1_jones`,
`source_coh`, `dde2_jones`, `die1_jones`, `die2_jones`), two present
tensors with different correlation classifications always make validation
fail with the correlation-mismatch error. -/
theorem validate_classified_mismatch (s : Sig)
    (hdde : s.dde1_jones.isSome = s.dde2_jones.isSome)
    (hdie : s.die1_jones.isSome = s.die2_jones.isSome)
    (t1 t2 t3 t4 t5 : JonesTy)
    (h1 : getJonesTypes "dde1_jones" s.dde1_jones 5 6 = .ok t1)
    (h2 : getJonesTypes "source_coh" s.source_coh 4 5 = .ok t2)
    (h3 : getJonesTypes "dde2_jones" s.dde2_jones 5 6 = .ok t3)
    (h4 : getJonesTypes "die1_jones" s.die1_jones 4 5 = .ok t4)
    (h5 : getJonesTypes "die2_jones" s.die2_jones 4 5 = .ok t5)
    (a b : JonesTy)
    (ha : a ∈ [t1, t2, t3, t4, t5].filter (fun t => t ≠ .notPresent))
    (hb : b ∈ [t1, t2, t3, t4, t5].filter (fun t => t ≠ .notPresent))
    (hab : a ≠ b) :
    validate s = .error .corrMismatch := by
  have hn1 := getJonesTypes_ndimOk _ _ _ _ _ h1
  have hn2 := getJonesTypes_ndimOk _ _ _ _ _ h2
  have hn3 := getJonesTypes_ndimOk _ _ _ _ _ h3
  have hn4 := getJonesTypes_ndimOk _ _ _ _ _ h4
  have hn5 := getJonesTypes_ndimOk _ _ _ _ _ h5
  have hpres : s.dde1_jones.isSome = true ∨ s.source_coh.isSome = true ∨
      s.dde2_jones.isSome = true ∨ s.die1_jones.isSome = true ∨
      s.base_vis.isSome = true ∨ s.die2_jones.isSome = true := by
    have hfa := List.mem_filter.mp ha
    have hane : a ≠ .notPresent := of_decide_eq_true hfa.2
    have hmem : a = t1 ∨ a = t2 ∨ a = t3 ∨ a = t4 ∨ a = t5 := by
      simpa [List.mem_cons] using hfa.1
    rcases hmem with rfl | rfl | rfl | rfl | rfl
    · exact Or.inl (getJonesTypes_present _ _ _ _ _ h1 hane)
    · exact Or.inr (Or.inl (getJonesTypes_present _ _ _ _ _ h2 hane))
    · exact Or.inr (Or.inr (Or.inl (getJonesTypes_present _ _ _ _ _ h3 hane)))
    · exact Or.inr (Or.inr (Or.inr (Or.inl
        (getJonesTypes_present _ _ _ _ _ h4 hane))))
    · exact Or.inr (Or.inr (Or.inr (Or.inr (Or.inr
        (getJonesTypes_present _ _ _ _ _ h5 hane)))))
  obtain ⟨d, hd⟩ := resultType_isSome _ (dtypeList_ne_nil s hpres)
  unfold validate
  rw [if_neg (by simp [hdde]), if_neg (by simp [hdie]), hd]
  simp only [hn1, hn2, hn3, hn4, hn5, h1, h2, h3, h4, h5, not_true_eq_false,
    Bool.not_eq_true, if_false]
  cases hfl : [t1, t2, t3, t4, t5].filter (fun t => t ≠ .notPresent) with
  | nil =>
    rw [hfl] at ha
    exact absurd ha (List.not_mem_nil a)
  | cons p rest =>
    rw [hfl] at ha hb
    have hfalse := not_all_eq_head p rest a b ha hb hab
    show (if (rest.all fun q => decide (q = p)) = true
        then Except.ok (p, d) else Except.error PErr.corrMismatch) =
      Except.error PErr.corrMismatch
    rw [if_neg (by simp [hfalse])]

/-- A call signature mixing a `(2,)`-correlation `source_coh` with
`(2, 2)`-correlation die terms. -/
def sigMixedClassified : Sig where
  nrow := 10
  dde1_jones := none
  source_coh := some ⟨[2, 10, 5, 2], .c128⟩
  dde2_jones := none
  die1_jones := some ⟨[4, 4, 5, 2, 2], .c128⟩
  base_vis := none
  die2_jones := some ⟨[4, 4, 5, 2, 2], .c128⟩

/-- Classification never fails with the allocator's error. -/
theorem getJonesTypes_ne_insufficient (name : String) (a : Option ArrSig)
    (c1 c2 : Nat) : getJonesTypes name a c1 c2 ≠ .error .insufficientInputs :=
  fun h => PErr.noConfusion (getJonesTypes_error _ _ _ _ _ h)

/-- The validation phase never produces the allocator's insufficient-inputs
error: that constructor does not occur in `validate`. -/
theorem validate_ne_insufficient (s : Sig) :
    validate s ≠ .error .insufficientInputs := by
  intro h
  unfold validate at h
  repeat' split at h
  all_goals
    first
    | exact absurd (Except.error.inj h) (by decide)
    | exact Except.noConfusion h
    | (have he := Except.error.inj h
       subst he
       exact getJonesTypes_ne_insufficient _ _ _ _ (by assumption))

/-- When every classified tensor is absent, validation cannot succeed. -/
theorem validate_ok_presence (s : Sig) (jt : JonesTy) (dt : Dtype)
    (h : validate s = .ok (jt, dt)) :
    s.dde1_jones.isSome = true ∨ s.source_coh.isSome = true ∨
      s.dde2_jones.isSome = true ∨ s.die1_jones.isSome = true ∨
      s.die2_jones.isSome = true := by
  by_contra hall
  push_neg at hall
  obtain ⟨n1, n2, n3, n4, n5⟩ := hall
  have e1 : s.dde1_jones = none := Option.not_isSome_iff_eq_none.mp (by simp [n1])
  have e2 : s.source_coh = none := Option.not_isSome_iff_eq_none.mp (by simp [n2])
  have e3 : s.dde2_jones = none := Option.not_isSome_iff_eq_none.mp (by simp [n3])
  have e4 : s.die1_jones = none := Option.not_isSome_iff_eq_none.mp (by simp [n4])
  have e5 : s.die2_jones = none := Option.not_isSome_iff_eq_none.mp (by simp [n5])
  unfold validate at h
  rw [e1, e2, e3, e4, e5] at h
  cases hbv : s.base_vis with
  | none =>
    rw [hbv] at h
    simp [pdtype, resultType, ndimOk, getJonesTypes] at h
  | some t =>
    rw [hbv] at h
    simp [pdtype, resultType, ndimOk, getJonesTypes] at h

/-- The allocator's insufficient-inputs failure is unreachable through
`predict_vis`: every call either fails earlier in validation or reaches a
successful allocation. -/
theorem insufficient_unreachable {V : Type} (cs : List Nat) (K : Kernels V)
    (i : PInputs V) : predict_vis cs K i ≠ .error .insufficientInputs := by
  intro h
  unfold predict_vis at h
  cases hv : validate (sigOf cs i) with
  | error e =>
    rw [hv] at h
    have he : e = .insufficientInputs := by simpa using h
    exact validate_ne_insufficient _ (he ▸ hv)
  | ok p =>
    obtain ⟨jt, dt⟩ := p
    rw [hv] at h
    have hp := validate_ok_presence _ _ _ hv
    cases hdde : i.dde_jones with
    | some pr => simp [output, hdde] at h
    | none =>
      cases hcoh : i.source_coh with
      | some c => simp [output, hdde, hcoh] at h
      | none =>
        cases hdie : i.die_jones with
        | some g => simp [output, hdde, hcoh, hdie] at h
        | none => simp [sigOf, hdde, hcoh, hdie] at hp

/-- When all five classified tensors are absent and `base_vis` is present,
validation fails with the classifier's no-Jones-terms error. -/
theorem validate_all5_absent (s : Sig) (h1 : s.dde1_jones = none)
    (h2 : s.source_coh = none) (h3 : s.dde2_jones = none)
    (h4 : s.die1_jones = none) (h5 : s.die2_jones = none)
    (t : ArrSig) (hb : s.base_vis = some t) :
    validate s = .error .noJonesTerms := by
  unfold validate
  rw [h1, h2, h3, h4, h5, hb]
  rfl

/-- C5 (amended): a call in which none of the three shape-carrying groups
is present but `base_vis` is fails with the classifier's
`NoJonesTermsError`; the Output Allocator's `InsufficientInputsError` is
unreachable through `predict_vis` for every call. -/
theorem predict_vis_no_group_noJonesTerms {V : Type} (cs : List Nat)
    (K : Kernels V) (i : PInputs V) (hdde : i.dde_jones = none)
    (hcoh : i.source_coh = none) (hdie : i.die_jones = none)
    (bv : VisT V) (hbv : i.base_vis = some bv) :
    predict_vis cs K i = .error .noJonesTerms ∧
      ∀ (j : PInputs V), predict_vis cs K j ≠ .error .insufficientInputs := by
  constructor
  · unfold predict_vis
    rw [validate_all5_absent (sigOf cs i) (by simp [sigOf, hdde])
        (by simp [sigOf, hcoh]) (by simp [sigOf, hdde]) (by simp [sigOf, hdie])
        (by simp [sigOf, hdie]) ⟨visShape cs bv, bv.dtype⟩
        (by simp [sigOf, hbv])]
  · exact fun j => insufficient_unreachable cs K j

/-- A typed call with only `base_vis` present (2x2 world over the
integers). -/
def iBaseVisOnly : PInputs (Mat2 Int) where
  nrow := 10
  time_index := fun _ => 0
  antenna1 := fun _ => 0
  antenna2 := fun _ => 0
  dde_jones := none
  source_coh := none
  die_jones := none
  base_vis := some ⟨10, 5, .c128, fun _ _ => ⟨0, 0, 0, 0⟩⟩

/-- C5 counterexample: with only `base_vis` supplied, `predict_vis` fails
with the classifier's no-Jones-terms error, not with the allocator's
insufficient-inputs error claimed by the specification. -/
theorem predict_vis_base_vis_only_cex :
    predict_vis [2, 2] (matKernels Int) iBaseVisOnly = .error .noJonesTerms ∧
      PErr.noJonesTerms ≠ PErr.insufficientInputs :=
  ⟨rfl, by decide⟩

/-- Witness for C5 (amended) at the concrete base-vis-only call. -/
theorem predict_vis_no_group_noJonesTerms_witness :
    iBaseVisOnly.dde_jones = none ∧ iBaseVisOnly.source_coh = none ∧
      iBaseVisOnly.die_jones = none ∧
      iBaseVisOnly.base_vis = some ⟨10, 5, .c128, fun _ _ => ⟨0, 0, 0, 0⟩⟩ ∧
      (predict_vis [2, 2] (matKernels Int) iBaseVisOnly =
          .error .noJonesTerms ∧
        ∀ (j : PInputs (Mat2 Int)),
          predict_vis [2, 2] (matKernels Int) j ≠ .error .insufficientInputs) :=
  ⟨rfl, rfl, rfl, rfl,
    predict_vis_no_group_noJonesTerms [2, 2] (matKernels Int) iBaseVisOnly
      rfl rfl rfl _ rfl⟩

/-- C7: the two-term 2x2 kernel specialized with `accumulate = False`
does not assign; it behaves exactly like the accumulating specialization
(the `else` branch of the source also uses `+=`, lines 155-158), and at
the failing input of three identity matrices it returns twice the
identity instead of the identity. -/
theorem jones_mul_2_mat_false_accumulates :
    (∀ (R : Type) [CommRing R] [StarRing R] (a1j a2j out : Mat2 R),
        jones_mul_2_mat false a1j a2j out = jones_mul_2_mat true a1j a2j out) ∧
      jones_mul_2_mat false (Mat2.mk 1 0 0 1) (Mat2.mk 1 0 0 1)
          (Mat2.mk 1 0 0 1) = (Mat2.mk 2 0 0 2 : Mat2 Int) := by
  constructor
  · intro R _ _ a1j a2j out
    simp [jones_mul_2_mat]
  · decide

/-- The promoted output dtype of a typed call (the value
`np.result_type` produces when at least one optional tensor is present). -/
def outDtypeOf {V : Type} (i : PInputs V) : Dtype :=
  (resultType (presentDtypes i)).getD .c128

/-- The channel extent `output_factory` reads, in its priority order. -/
def chanOf {V : Type} (i : PInputs V) : Nat :=
  match i.dde_jones with
  | some p => p.1.nchan
  | none =>
    match i.source_coh with
    | some c => c.nchan
    | none =>
      match i.die_jones with
      | some g => g.1.nchan
      | none => 0

/-- On typed inputs with a two-element correlation shape, validation
succeeds with the `JONES_2X2` classification whenever a shape-carrying
group is present. -/
theorem validate_sigOf_two {V : Type} (i : PInputs V) (c1 c2 : Nat)
    (hpres : i.dde_jones.isSome = true ∨ i.source_coh.isSome = true ∨
      i.die_jones.isSome = true) :
    validate (sigOf [c1, c2] i) = .ok (.twoByTwo, outDtypeOf i) := by
  rcases hdde : i.dde_jones with _ | p <;>
    rcases hcoh : i.source_coh with _ | c <;>
    rcases hdie : i.die_jones with _ | g <;>
    rcases hbv : i.base_vis with _ | b <;>
    simp only [sigOf, outDtypeOf, presentDtypes, hdde, hcoh, hdie, hbv] <;>
    first
      | rfl
      | (exact absurd hpres (by simp [hdde, hcoh, hdie]))

/-- On typed inputs with a one-element correlation shape, validation
succeeds with the `JONES_1_OR_2` classification whenever a shape-carrying
group is present. -/
theorem validate_sigOf_one {V : Type} (i : PInputs V) (c1 : Nat)
    (hpres : i.dde_jones.isSome = true ∨ i.source_coh.isSome = true ∨
      i.die_jones.isSome = true) :
    validate (sigOf [c1] i) = .ok (.oneOrTwo, outDtypeOf i) := by
  rcases hdde : i.dde_jones with _ | p <;>
    rcases hcoh : i.source_coh with _ | c <;>
    rcases hdie : i.die_jones with _ | g <;>
    rcases hbv : i.base_vis with _ | b <;>
    simp only [sigOf, outDtypeOf, presentDtypes, hdde, hcoh, hdie, hbv] <;>
    first
      | rfl
      | (exact absurd hpres (by simp [hdde, hcoh, hdie]))

/-- The allocator succeeds with the priority channel extent when some
shape-carrying group is present. -/
theorem output_eq {V : Type} (K : Kernels V) (i : PInputs V) (dt : Dtype)
    (hpres : i.dde_jones.isSome = true ∨ i.source_coh.isSome = true ∨
      i.die_jones.isSome = true) :
    output K i dt = some ⟨i.nrow, chanOf i, dt, fun _ _ => K.zero⟩ := by
  rcases hdde : i.dde_jones with _ | p <;>
    rcases hcoh : i.source_coh with _ | c <;>
    rcases hdie : i.die_jones with _ | g <;>
    simp only [output, chanOf, hdde, hcoh, hdie] <;>
    first
      | rfl
      | (exact absurd hpres (by simp [hdde, hcoh, hdie]))

section MatrixRun

variable {R : Type} [CommRing R] [StarRing R]

/-- Entry value of the three-term coherency summation in the 2x2 world. -/
theorem sum3_entry_mat (nrow : Nat) (time : Nat → Int) (ant1 ant2 : Nat → Nat)
    (a1j a2j : DDET (Mat2 R)) (blj : CohT (Mat2 R)) (tmin : Int)
    (out : VisT (Mat2 R)) (r f : Nat) (hr : r < nrow) (hf : f < a1j.nchan) :
    ((sum_coherencies (matKernels R) nrow time ant1 ant2
        (some (a1j, a2j)) (some blj) tmin out).data r f).toM =
      (out.data r f).toM + ∑ s ∈ Finset.range a1j.nsrc,
        (a1j.data s (time r - tmin) (ant1 r) f).toM *
          (blj.data s r f).toM *
          conjE (a2j.data s (time r - tmin) (ant2 r) f).toM := by
  simp only [sum_coherencies]
  rw [if_pos ⟨hr, hf⟩]
  exact foldl_hom_add Mat2.toM _ _
    (fun m s => jones_mul_3_mat_true_toM _ _ _ m) _ _

/-- Entry value of the two-term coherency summation in the 2x2 world. -/
theorem sum2_entry_mat (nrow : Nat) (time : Nat → Int) (ant1 ant2 : Nat → Nat)
    (a1j a2j : DDET (Mat2 R)) (tmin : Int)
    (out : VisT (Mat2 R)) (r f : Nat) (hr : r < nrow) (hf : f < a1j.nchan) :
    ((sum_coherencies (matKernels R) nrow time ant1 ant2
        (some (a1j, a2j)) none tmin out).data r f).toM =
      (out.data r f).toM + ∑ s ∈ Finset.range a1j.nsrc,
        (a1j.data s (time r - tmin) (ant1 r) f).toM *
          conjE (a2j.data s (time r - tmin) (ant2 r) f).toM := by
  simp only [sum_coherencies]
  rw [if_pos ⟨hr, hf⟩]
  exact foldl_hom_add Mat2.toM _ _
    (fun m s => jones_mul_2_mat_true_toM _ _ m) _ _

/-- Entry value of the baseline-only coherency summation in the 2x2
world. -/
theorem sumbl_entry_mat (nrow : Nat) (time : Nat → Int) (ant1 ant2 : Nat → Nat)
    (blj : CohT (Mat2 R)) (tmin : Int)
    (out : VisT (Mat2 R)) (r f : Nat) (hr : r < blj.nrow) (hf : f < blj.nchan) :
    ((sum_coherencies (matKernels R) nrow time ant1 ant2
        none (some blj) tmin out).data r f).toM =
      (out.data r f).toM + ∑ s ∈ Finset.range blj.nsrc,
        (blj.data s r f).toM := by
  simp only [sum_coherencies]
  rw [if_pos ⟨hr, hf⟩]
  exact foldl_hom_add Mat2.toM _ _
    (fun m s => Mat2.addE_toM m (blj.data s r f)) _ _

/-- Entry value of the base-visibility accumulation in the 2x2 world. -/
theorem add_entry_mat (bv out : VisT (Mat2 R)) (r f : Nat)
    (hr : r < out.nrow) (hf : f < out.nchan) :
    ((add_coh (matKernels R) (some bv) out).data r f).toM =
      (out.data r f).toM + (bv.data r f).toM := by
  simp only [add_coh]
  rw [if_pos ⟨hr, hf⟩]
  exact Mat2.addE_toM _ _

/-- Entry value of the DIE application in the 2x2 world. -/
theorem dies_entry_mat (nrow : Nat) (time : Nat → Int) (ant1 ant2 : Nat → Nat)
    (g1 g2 : DIET (Mat2 R)) (tmin : Int) (out : VisT (Mat2 R)) (r c : Nat)
    (hr : r < nrow) (hc : c < out.nchan) :
    ((apply_dies (matKernels R) nrow time ant1 ant2
        (some (g1, g2)) tmin out).data r c).toM =
      (g1.data (time r - tmin) (ant1 r) c).toM * (out.data r c).toM *
        conjE (g2.data (time r - tmin) (ant2 r) c).toM := by
  simp only [apply_dies]
  rw [if_pos ⟨hr, hc⟩]
  exact jones_mul_3_mat_false_toM (g1.data (time r - tmin) (ant1 r) c)
    (out.data r c) (g2.data (time r - tmin) (ant2 r) c) (out.data r c)

end MatrixRun

section VecKernelLemmas

variable {R : Type} [CommRing R] [StarRing R]

/-- Pointwise value of the accumulating three-term scalar kernel inside
the correlation extent. -/
theorem jones_mul_3_vec_true_apply (ncorr : Nat) (a1j blj a2j out : Nat → R)
    (c : Nat) (hc : c < ncorr) :
    jones_mul_3_vec ncorr true a1j blj a2j out c =
      out c + a1j c * blj c * star (a2j c) := by
  simp [jones_mul_3_vec, hc]

/-- Pointwise value of the assigning three-term scalar kernel inside the
correlation extent. -/
theorem jones_mul_3_vec_false_apply (ncorr : Nat) (a1j blj a2j out : Nat → R)
    (c : Nat) (hc : c < ncorr) :
    jones_mul_3_vec ncorr false a1j blj a2j out c =
      a1j c * blj c * star (a2j c) := by
  simp [jones_mul_3_vec, hc]

/-- Pointwise value of the accumulating two-term scalar kernel inside the
correlation extent. -/
theorem jones_mul_2_vec_true_apply (ncorr : Nat) (a1j a2j out : Nat → R)
    (c : Nat) (hc : c < ncorr) :
    jones_mul_2_vec ncorr true a1j a2j out c =
      out c + a1j c * star (a2j c) := by
  simp [jones_mul_2_vec, hc]

omit [StarRing R] in
/-- Pointwise value of the elementwise scalar addition inside the
correlation extent. -/
theorem vecAdd_apply (ncorr : Nat) (a b : Nat → R) (c : Nat)
    (hc : c < ncorr) : vecAdd ncorr a b c = a c + b c := by
  simp [vecAdd, hc]

/-- Entry value of the three-term coherency summation in the scalar
world. -/
theorem sum3_entry_vec (ncorr nrow : Nat) (time : Nat → Int)
    (ant1 ant2 : Nat → Nat) (a1j a2j : DDET (Nat → R))
    (blj : CohT (Nat → R)) (tmin : Int) (out : VisT (Nat → R))
    (r f cc : Nat) (hr : r < nrow) (hf : f < a1j.nchan) (hc : cc < ncorr) :
    ((sum_coherencies (vecKernels R ncorr) nrow time ant1 ant2
        (some (a1j, a2j)) (some blj) tmin out).data r f) cc =
      out.data r f cc + ∑ s ∈ Finset.range a1j.nsrc,
        a1j.data s (time r - tmin) (ant1 r) f cc *
          blj.data s r f cc *
          star (a2j.data s (time r - tmin) (ant2 r) f cc) := by
  simp only [sum_coherencies]
  rw [if_pos ⟨hr, hf⟩]
  exact @foldl_hom_add (Nat → R) R _ (fun v => v cc) _ _
    (fun m s => jones_mul_3_vec_true_apply ncorr
      (a1j.data s (time r - tmin) (ant1 r) f) (blj.data s r f)
      (a2j.data s (time r - tmin) (ant2 r) f) m cc hc) _ _

/-- Entry value of the two-term coherency summation in the scalar world. -/
theorem sum2_entry_vec (ncorr nrow : Nat) (time : Nat → Int)
    (ant1 ant2 : Nat → Nat) (a1j a2j : DDET (Nat → R)) (tmin : Int)
    (out : VisT (Nat → R)) (r f cc : Nat) (hr : r < nrow)
    (hf : f < a1j.nchan) (hc : cc < ncorr) :
    ((sum_coherencies (vecKernels R ncorr) nrow time ant1 ant2
        (some (a1j, a2j)) none tmin out).data r f) cc =
      out.data r f cc + ∑ s ∈ Finset.range a1j.nsrc,
        a1j.data s (time r - tmin) (ant1 r) f cc *
          star (a2j.data s (time r - tmin) (ant2 r) f cc) := by
  simp only [sum_coherencies]
  rw [if_pos ⟨hr, hf⟩]
  exact @foldl_hom_add (Nat → R) R _ (fun v => v cc) _ _
    (fun m s => jones_mul_2_vec_true_apply ncorr
      (a1j.data s (time r - tmin) (ant1 r) f)
      (a2j.data s (time r - tmin) (ant2 r) f) m cc hc) _ _

/-- Entry value of the baseline-only coherency summation in the scalar
world. -/
theorem sumbl_entry_vec (ncorr nrow : Nat) (time : Nat → Int)
    (ant1 ant2 : Nat → Nat) (blj : CohT (Nat → R)) (tmin : Int)
    (out : VisT (Nat → R)) (r f cc : Nat) (hr : r < blj.nrow)
    (hf : f < blj.nchan) (hc : cc < ncorr) :
    ((sum_coherencies (vecKernels R ncorr) nrow time ant1 ant2
        none (some blj) tmin out).data r f) cc =
      out.data r f cc + ∑ s ∈ Finset.range blj.nsrc, blj.data s r f cc := by
  simp only [sum_coherencies]
  rw [if_pos ⟨hr, hf⟩]
  exact @foldl_hom_add (Nat → R) R _ (fun v => v cc) _ _
    (fun m s => vecAdd_apply ncorr m (blj.data s r f) cc hc) _ _

/-- Entry value of the base-visibility accumulation in the scalar world. -/
theorem add_entry_vec (ncorr : Nat) (bv out : VisT (Nat → R)) (r f cc : Nat)
    (hr : r < out.nrow) (hf : f < out.nchan) (hc : cc < ncorr) :
    ((add_coh (vecKernels R ncorr) (some bv) out).data r f) cc =
      out.data r f cc + bv.data r f cc := by
  simp only [add_coh]
  rw [if_pos ⟨hr, hf⟩]
  exact vecAdd_apply ncorr _ _ cc hc

/-- Entry value of the DIE application in the scalar world. -/
theorem dies_entry_vec (ncorr nrow : Nat) (time : Nat → Int)
    (ant1 ant2 : Nat → Nat) (g1 g2 : DIET (Nat → R)) (tmin : Int)
    (out : VisT (Nat → R)) (r c cc : Nat) (hr : r < nrow)
    (hc : c < out.nchan) (hcc : cc < ncorr) :
    ((apply_dies (vecKernels R ncorr) nrow time ant1 ant2
        (some (g1, g2)) tmin out).data r c) cc =
      g1.data (time r - tmin) (ant1 r) c cc * out.data r c cc *
        star (g2.data (time r - tmin) (ant2 r) c cc) := by
  simp only [apply_dies]
  rw [if_pos ⟨hr, hc⟩]
  exact jones_mul_3_vec_false_apply ncorr _ _ _ _ cc hcc

end VecKernelLemmas


/-- The coherency summation does not change the extents or dtype of the
output buffer. -/
theorem sum_coherencies_meta {V : Type} (K : Kernels V) (nrow : Nat)
    (time : Nat → Int) (ant1 ant2 : Nat → Nat)
    (dde : Option (DDET V × DDET V)) (coh : Option (CohT V))
    (tmin : Int) (out : VisT V) :
    (sum_coherencies K nrow time ant1 ant2 dde coh tmin out).nrow = out.nrow ∧
      (sum_coherencies K nrow time ant1 ant2 dde coh tmin out).nchan =
        out.nchan ∧
      (sum_coherencies K nrow time ant1 ant2 dde coh tmin out).dtype =
        out.dtype := by
  rcases dde with _ | ⟨a1j, a2j⟩ <;> rcases coh with _ | blj <;>
    exact ⟨rfl, rfl, rfl⟩

/-- The base-visibility accumulation does not change the extents or dtype
of the output buffer. -/
theorem add_coh_meta {V : Type} (K : Kernels V) (bvis : Option (VisT V))
    (out : VisT V) :
    (add_coh K bvis out).nrow = out.nrow ∧
      (add_coh K bvis out).nchan = out.nchan ∧
      (add_coh K bvis out).dtype = out.dtype := by
  rcases bvis with _ | bv <;> exact ⟨rfl, rfl, rfl⟩

/-- The DIE application does not change the extents or dtype of the output
buffer. -/
theorem apply_dies_meta {V : Type} (K : Kernels V) (nrow : Nat)
    (time : Nat → Int) (ant1 ant2 : Nat → Nat)
    (die : Option (DIET V × DIET V)) (tmin : Int) (out : VisT V) :
    (apply_dies K nrow time ant1 ant2 die tmin out).nrow = out.nrow ∧
      (apply_dies K nrow time ant1 ant2 die tmin out).nchan = out.nchan ∧
      (apply_dies K nrow time ant1 ant2 die tmin out).dtype = out.dtype := by
  rcases die with _ | ⟨g1, g2⟩ <;> exact ⟨rfl, rfl, rfl⟩

/-- `predictBody` does not change the extents or dtype of the output
buffer. -/
theorem predictBody_meta {V : Type} (K : Kernels V) (i : PInputs V)
    (out : VisT V) :
    (predictBody K i out).nrow = out.nrow ∧
      (predictBody K i out).nchan = out.nchan ∧
      (predictBody K i out).dtype = out.dtype := by
  unfold predictBody
  obtain ⟨d1, d2, d3⟩ := apply_dies_meta K i.nrow i.time_index i.antenna1
    i.antenna2 i.die_jones (npMin i.time_index i.nrow)
    (add_coh K i.base_vis
      (sum_coherencies K i.nrow i.time_index i.antenna1 i.antenna2
        i.dde_jones i.source_coh (npMin i.time_index i.nrow) out))
  obtain ⟨a1, a2, a3⟩ := add_coh_meta K i.base_vis
    (sum_coherencies K i.nrow i.time_index i.antenna1 i.antenna2
      i.dde_jones i.source_coh (npMin i.time_index i.nrow) out)
  obtain ⟨s1, s2, s3⟩ := sum_coherencies_meta K i.nrow i.time_index i.antenna1
    i.antenna2 i.dde_jones i.source_coh (npMin i.time_index i.nrow) out
  refine ⟨?_, ?_, ?_⟩
  · rw [d1, a1, s1]
  · rw [d2, a2, s2]
  · rw [d3, a3, s3]

/-- C2: when `source_coh` is the only present optional tensor, the result
has shape `(row, chan)` plus the correlation shape and each entry is the
exact sum over the source axis of `source_coh`, with no antenna indexing
involved, for both the 2x2 and the scalar correlation classifications. -/
theorem predict_vis_source_coh_only :
    (∀ (R : Type) [CommRing R] [StarRing R] (i : PInputs (Mat2 R))
        (X : CohT (Mat2 R)),
        i.dde_jones = none → i.die_jones = none → i.base_vis = none →
        i.source_coh = some X → X.nrow = i.nrow →
        ∃ o, predict_vis [2, 2] (matKernels R) i = .ok o ∧
          o.nrow = i.nrow ∧ o.nchan = X.nchan ∧
          ∀ r, r < i.nrow → ∀ f, f < X.nchan →
            (o.data r f).toM =
              ∑ s ∈ Finset.range X.nsrc, (X.data s r f).toM) ∧
      (∀ (R : Type) [CommRing R] [StarRing R] (ncorr : Nat)
          (i : PInputs (Nat → R)) (X : CohT (Nat → R)),
          i.dde_jones = none → i.die_jones = none → i.base_vis = none →
          i.source_coh = some X → X.nrow = i.nrow →
          ∃ o, predict_vis [ncorr] (vecKernels R ncorr) i = .ok o ∧
            o.nrow = i.nrow ∧ o.nchan = X.nchan ∧
            ∀ r, r < i.nrow → ∀ f, f < X.nchan → ∀ cc, cc < ncorr →
              o.data r f cc = ∑ s ∈ Finset.range X.nsrc, X.data s r f cc) := by
  constructor
  · intro R _ _ i X hdde hdie hbv hcoh hrow
    have hpres : i.dde_jones.isSome = true ∨ i.source_coh.isSome = true ∨
        i.die_jones.isSome = true := Or.inr (Or.inl (by simp [hcoh]))
    have hval := validate_sigOf_two i 2 2 hpres
    have hout := output_eq (matKernels R) i (outDtypeOf i) hpres
    have hchan : chanOf i = X.nchan := by simp [chanOf, hdde, hcoh]
    refine ⟨predictBody (matKernels R) i
      ⟨i.nrow, chanOf i, outDtypeOf i, fun _ _ => (matKernels R).zero⟩,
      ?_, ?_, ?_, ?_⟩
    · unfold predict_vis
      simp only [hval, hout]
    · exact (predictBody_meta _ _ _).1
    · exact ((predictBody_meta _ _ _).2.1).trans hchan
    · intro r hr f hf
      simp only [predictBody, hdde, hdie, hbv, hcoh]
      simp only [apply_dies, add_coh]
      rw [sumbl_entry_mat i.nrow i.time_index i.antenna1 i.antenna2 X
        (npMin i.time_index i.nrow)
        ⟨i.nrow, chanOf i, outDtypeOf i, fun _ _ => (matKernels R).zero⟩
        r f (by rw [hrow]; exact hr) hf]
      simp [matKernels_zero_toM]
  · intro R _ _ ncorr i X hdde hdie hbv hcoh hrow
    have hpres : i.dde_jones.isSome = true ∨ i.source_coh.isSome = true ∨
        i.die_jones.isSome = true := Or.inr (Or.inl (by simp [hcoh]))
    have hval := validate_sigOf_one i ncorr hpres
    have hout := output_eq (vecKernels R ncorr) i (outDtypeOf i) hpres
    have hchan : chanOf i = X.nchan := by simp [chanOf, hdde, hcoh]
    refine ⟨predictBody (vecKernels R ncorr) i
      ⟨i.nrow, chanOf i, outDtypeOf i, fun _ _ => (vecKernels R ncorr).zero⟩,
      ?_, ?_, ?_, ?_⟩
    · unfold predict_vis
      simp only [hval, hout]
    · exact (predictBody_meta _ _ _).1
    · exact ((predictBody_meta _ _ _).2.1).trans hchan
    · intro r hr f hf cc hcc
      simp only [predictBody, hdde, hdie, hbv, hcoh]
      simp only [apply_dies, add_coh]
      rw [sumbl_entry_vec ncorr i.nrow i.time_index i.antenna1 i.antenna2 X
        (npMin i.time_index i.nrow)
        ⟨i.nrow, chanOf i, outDtypeOf i, fun _ _ => (vecKernels R ncorr).zero⟩
        r f cc (by rw [hrow]; exact hr) hf hcc]
      simp [vecKernels]

/-- A concrete `source_coh`-only call in the 2x2 world over the
integers. -/
def iCohOnly : PInputs (Mat2 Int) where
  nrow := 3
  time_index := fun r => r
  antenna1 := fun _ => 0
  antenna2 := fun _ => 1
  dde_jones := none
  source_coh := some ⟨2, 3, 2, .c128, fun s r f => ⟨s + r, f, 1, 0⟩⟩
  die_jones := none
  base_vis := none

/-- Witness for C2 at the concrete `source_coh`-only call. -/
theorem predict_vis_source_coh_only_witness :
    iCohOnly.dde_jones = none ∧ iCohOnly.die_jones = none ∧
      iCohOnly.base_vis = none ∧
      iCohOnly.source_coh =
        some ⟨2, 3, 2, .c128, fun s r f => ⟨s + r, f, 1, 0⟩⟩ ∧
      (∃ o, predict_vis [2, 2] (matKernels Int) iCohOnly = .ok o ∧
        o.nrow = iCohOnly.nrow ∧ o.nchan = 2 ∧
        ∀ r, r < iCohOnly.nrow → ∀ f, f < 2 →
          (o.data r f).toM =
            ∑ s ∈ Finset.range 2,
              ((Mat2.mk (s + r) f 1 0 : Mat2 Int)).toM) :=
  ⟨rfl, rfl, rfl, rfl,
    predict_vis_source_coh_only.1 Int iCohOnly
      ⟨2, 3, 2, .c128, fun s r f => ⟨s + r, f, 1, 0⟩⟩ rfl rfl rfl rfl rfl⟩

/-- C10: when the die pair is the only present optional group, the call
succeeds, the output has shape `(row, chan)` from the die terms, and every
entry is zero: the DIE sandwich is applied to the zero-initialized
accumulator, so the die values never influence the result.  Stated for
both correlation classifications. -/
theorem predict_vis_dies_only_zero :
    (∀ (R : Type) [CommRing R] [StarRing R] (i : PInputs (Mat2 R))
        (g1 g2 : DIET (Mat2 R)),
        i.dde_jones = none → i.source_coh = none → i.base_vis = none →
        i.die_jones = some (g1, g2) →
        ∃ o, predict_vis [2, 2] (matKernels R) i = .ok o ∧
          o.nrow = i.nrow ∧ o.nchan = g1.nchan ∧
          ∀ r, r < i.nrow → ∀ c, c < g1.nchan → (o.data r c).toM = 0) ∧
      (∀ (R : Type) [CommRing R] [StarRing R] (ncorr : Nat)
          (i : PInputs (Nat → R)) (g1 g2 : DIET (Nat → R)),
          i.dde_jones = none → i.source_coh = none → i.base_vis = none →
          i.die_jones = some (g1, g2) →
          ∃ o, predict_vis [ncorr] (vecKernels R ncorr) i = .ok o ∧
            o.nrow = i.nrow ∧ o.nchan = g1.nchan ∧
            ∀ r, r < i.nrow → ∀ c, c < g1.nchan → ∀ cc, cc < ncorr →
              o.data r c cc = 0) := by
  constructor
  · intro R _ _ i g1 g2 hdde hcoh hbv hdie
    have hpres : i.dde_jones.isSome = true ∨ i.source_coh.isSome = true ∨
        i.die_jones.isSome = true := Or.inr (Or.inr (by simp [hdie]))
    have hval := validate_sigOf_two i 2 2 hpres
    have hout := output_eq (matKernels R) i (outDtypeOf i) hpres
    have hchan : chanOf i = g1.nchan := by simp [chanOf, hdde, hcoh, hdie]
    refine ⟨predictBody (matKernels R) i
      ⟨i.nrow, chanOf i, outDtypeOf i, fun _ _ => (matKernels R).zero⟩,
      ?_, ?_, ?_, ?_⟩
    · unfold predict_vis
      simp only [hval, hout]
    · exact (predictBody_meta _ _ _).1
    · exact ((predictBody_meta _ _ _).2.1).trans hchan
    · intro r hr c hc
      simp only [predictBody, hdde, hdie, hbv, hcoh]
      simp only [sum_coherencies, add_coh]
      rw [dies_entry_mat i.nrow i.time_index i.antenna1 i.antenna2 g1 g2
        (npMin i.time_index i.nrow)
        ⟨i.nrow, chanOf i, outDtypeOf i, fun _ _ => (matKernels R).zero⟩
        r c hr (by rw [hchan]; exact hc)]
      simp [matKernels_zero_toM]
  · intro R _ _ ncorr i g1 g2 hdde hcoh hbv hdie
    have hpres : i.dde_jones.isSome = true ∨ i.source_coh.isSome = true ∨
        i.die_jones.isSome = true := Or.inr (Or.inr (by simp [hdie]))
    have hval := validate_sigOf_one i ncorr hpres
    have hout := output_eq (vecKernels R ncorr) i (outDtypeOf i) hpres
    have hchan : chanOf i = g1.nchan := by simp [chanOf, hdde, hcoh, hdie]
    refine ⟨predictBody (vecKernels R ncorr) i
      ⟨i.nrow, chanOf i, outDtypeOf i, fun _ _ => (vecKernels R ncorr).zero⟩,
      ?_, ?_, ?_, ?_⟩
    · unfold predict_vis
      simp only [hval, hout]
    · exact (predictBody_meta _ _ _).1
    · exact ((predictBody_meta _ _ _).2.1).trans hchan
    · intro r hr c hc cc hcc
      simp only [predictBody, hdde, hdie, hbv, hcoh]
      simp only [sum_coherencies, add_coh]
      rw [dies_entry_vec ncorr i.nrow i.time_index i.antenna1 i.antenna2 g1 g2
        (npMin i.time_index i.nrow)
        ⟨i.nrow, chanOf i, outDtypeOf i, fun _ _ => (vecKernels R ncorr).zero⟩
        r c cc hr (by rw [hchan]; exact hc) hcc]
      simp [vecKernels]

/-- A concrete die-only call in the 2x2 world over the integers. -/
def iDiesOnly : PInputs (Mat2 Int) where
  nrow := 2
  time_index := fun r => r
  antenna1 := fun _ => 0
  antenna2 := fun _ => 1
  dde_jones := none
  source_coh := none
  die_jones := some (⟨2, 2, 4, .c64, fun t a c => ⟨t + a, c, 5, 7⟩⟩,
                     ⟨2, 2, 4, .c64, fun t a c => ⟨t, a + c, 3, 11⟩⟩)
  base_vis := none

/-- Witness for C10 at the concrete die-only call. -/
theorem predict_vis_dies_only_zero_witness :
    iDiesOnly.dde_jones = none ∧ iDiesOnly.source_coh = none ∧
      iDiesOnly.base_vis = none ∧
      iDiesOnly.die_jones =
        some (⟨2, 2, 4, .c64, fun t a c => ⟨t + a, c, 5, 7⟩⟩,
              ⟨2, 2, 4, .c64, fun t a c => ⟨t, a + c, 3, 11⟩⟩) ∧
      (∃ o, predict_vis [2, 2] (matKernels Int) iDiesOnly = .ok o ∧
        o.nrow = iDiesOnly.nrow ∧ o.nchan = 4 ∧
        ∀ r, r < iDiesOnly.nrow → ∀ c, c < 4 → (o.data r c).toM = 0) :=
  ⟨rfl, rfl, rfl, rfl,
    predict_vis_dies_only_zero.1 Int iDiesOnly
      ⟨2, 2, 4, .c64, fun t a c => ⟨t + a, c, 5, 7⟩⟩
      ⟨2, 2, 4, .c64, fun t a c => ⟨t, a + c, 3, 11⟩⟩ rfl rfl rfl rfl⟩

/-- Shifting all time indices and the minimum together leaves the
coherency summation unchanged: only the difference enters the kernels. -/
theorem sum_coherencies_shift {V : Type} (K : Kernels V) (nrow : Nat)
    (time : Nat → Int) (ant1 ant2 : Nat → Nat)
    (dde : Option (DDET V × DDET V)) (coh : Option (CohT V))
    (tmin k : Int) (out : VisT V) :
    sum_coherencies K nrow (fun r => time r + k) ant1 ant2 dde coh
        (tmin + k) out =
      sum_coherencies K nrow time ant1 ant2 dde coh tmin out := by
  rcases dde with _ | ⟨a1j, a2j⟩ <;> rcases coh with _ | blj <;>
    simp only [sum_coherencies] <;>
    first
      | rfl
      | (refine congrArg (fun d => VisT.mk out.nrow out.nchan out.dtype d) ?_
         funext r f
         simp only [add_sub_add_right_eq_sub])

/-- Shifting all time indices and the minimum together leaves the DIE
application unchanged. -/
theorem apply_dies_shift {V : Type} (K : Kernels V) (nrow : Nat)
    (time : Nat → Int) (ant1 ant2 : Nat → Nat)
    (die : Option (DIET V × DIET V)) (tmin k : Int) (out : VisT V) :
    apply_dies K nrow (fun r => time r + k) ant1 ant2 die (tmin + k) out =
      apply_dies K nrow time ant1 ant2 die tmin out := by
  rcases die with _ | ⟨g1, g2⟩ <;>
    simp only [apply_dies] <;>
    first
      | rfl
      | (refine congrArg (fun d => VisT.mk out.nrow out.nchan out.dtype d) ?_
         funext r c
         simp only [add_sub_add_right_eq_sub])

/-- The numerical body is invariant under a constant shift of the time
index array. -/
theorem predictBody_shift {V : Type} (K : Kernels V) (i : PInputs V)
    (k : Int) (out0 : VisT V) :
    predictBody K { i with time_index := fun r => i.time_index r + k } out0 =
      predictBody K i out0 := by
  show apply_dies K i.nrow (fun r => i.time_index r + k) i.antenna1 i.antenna2
      i.die_jones (npMin (fun r => i.time_index r + k) i.nrow)
      (add_coh K i.base_vis
        (sum_coherencies K i.nrow (fun r => i.time_index r + k) i.antenna1
          i.antenna2 i.dde_jones i.source_coh
          (npMin (fun r => i.time_index r + k) i.nrow) out0)) =
    apply_dies K i.nrow i.time_index i.antenna1 i.antenna2 i.die_jones
      (npMin i.time_index i.nrow)
      (add_coh K i.base_vis
        (sum_coherencies K i.nrow i.time_index i.antenna1 i.antenna2
          i.dde_jones i.source_coh (npMin i.time_index i.nrow) out0))
  rw [npMin_shift, sum_coherencies_shift, apply_dies_shift]

/-- C6: adding any integer constant to every `time_index` value, keeping
all other inputs unchanged, yields an identical `predict_vis` result:
only differences from the per-call minimum index the time axes. -/
theorem predict_vis_time_shift {V : Type} (cs : List Nat) (K : Kernels V)
    (i : PInputs V) (k : Int) :
    predict_vis cs K { i with time_index := fun r => i.time_index r + k } =
      predict_vis cs K i := by
  unfold predict_vis
  have hsig : sigOf cs { i with time_index := fun r => i.time_index r + k } =
      sigOf cs i := rfl
  rw [hsig]
  cases validate (sigOf cs i) with
  | error e => rfl
  | ok p =>
    obtain ⟨jt, dt⟩ := p
    have hout : output K { i with time_index := fun r => i.time_index r + k }
        dt = output K i dt := rfl
    show (match output K { i with time_index := fun r => i.time_index r + k }
          dt with
      | none => Except.error PErr.insufficientInputs
      | some out0 => Except.ok (predictBody K
          { i with time_index := fun r => i.time_index r + k } out0)) =
      (match output K i dt with
      | none => Except.error PErr.insufficientInputs
      | some out0 => Except.ok (predictBody K i out0))
    rw [hout]
    cases output K i dt with
    | none => rfl
    | some out0 =>
      show Except.ok (predictBody K
          { i with time_index := fun r => i.time_index r + k } out0) =
        Except.ok (predictBody K i out0)
      rw [predictBody_shift]

/-- Combined machine state of one `_predict_vis_fn` invocation: the
caller-owned input arrays plus the output buffer.  Every assignment in
the body of `_predict_vis_fn` and in the kernels it calls targets an
element of `out`; the embedding makes this explicit by threading the whole
state through the three phases, each of which replaces only the `out`
component. -/
structure MachState (V : Type) where
  inp : PInputs V
  out : VisT V

/-- The coherency-summation statement of `_predict_vis_fn` as a state
transformer (predict.py lines 413-415): writes only `out`. -/
def machSumCoh {V : Type} (K : Kernels V) (tmin : Int) (st : MachState V) :
    MachState V :=
  { st with
    out := sum_coherencies K st.inp.nrow st.inp.time_index st.inp.antenna1
      st.inp.antenna2 st.inp.dde_jones st.inp.source_coh tmin st.out }

/-- The base-visibility statement of `_predict_vis_fn` as a state
transformer (predict.py line 418): writes only `out`. -/
def machAddCoh {V : Type} (K : Kernels V) (st : MachState V) : MachState V :=
  { st with out := add_coh K st.inp.base_vis st.out }

/-- The DIE-application statement of `_predict_vis_fn` as a state
transformer (predict.py lines 421-423): writes only `out`. -/
def machApplyDies {V : Type} (K : Kernels V) (tmin : Int)
    (st : MachState V) : MachState V :=
  { st with
    out := apply_dies K st.inp.nrow st.inp.time_index st.inp.antenna1
      st.inp.antenna2 st.inp.die_jones tmin st.out }

/-- One full invocation of `_predict_vis_fn` on the machine state,
starting from the freshly allocated output buffer. -/
def machRun {V : Type} (K : Kernels V) (i : PInputs V) (out0 : VisT V) :
    MachState V :=
  let tmin := npMin i.time_index i.nrow
  machApplyDies K tmin (machAddCoh K (machSumCoh K tmin ⟨i, out0⟩))

/-- C8: a `predict_vis` invocation leaves every input tensor unchanged;
the only array it writes is the output buffer, which is freshly allocated
and zero-filled by the allocator and then transformed in place by the
three phases, yielding exactly the value `predict_vis` returns. -/
theorem predict_vis_frame {V : Type} (K : Kernels V) (i : PInputs V)
    (dt : Dtype) (out0 : VisT V) (halloc : output K i dt = some out0) :
    (machRun K i out0).inp = i ∧
      (∀ r c, out0.data r c = K.zero) ∧
      (machRun K i out0).out = predictBody K i out0 := by
  refine ⟨rfl, ?_, rfl⟩
  unfold output at halloc
  repeat' split at halloc
  all_goals
    first
    | exact Option.noConfusion halloc
    | (cases Option.some.inj halloc
       intro r c
       rfl)

/-- A concrete allocation for the frame witness: a `source_coh`-only call
in the 2x2 integer world. -/
def iFrame : PInputs (Mat2 Int) where
  nrow := 2
  time_index := fun r => r
  antenna1 := fun _ => 0
  antenna2 := fun _ => 1
  dde_jones := none
  source_coh := some ⟨1, 2, 1, .c64, fun s r f => ⟨s + 1, r + 2, f, 4⟩⟩
  die_jones := none
  base_vis := none

/-- Witness for C8 at a concrete allocation. -/
theorem predict_vis_frame_witness :
    output (matKernels Int) iFrame .c64 =
        some ⟨2, 1, .c64, fun _ _ => (matKernels Int).zero⟩ ∧
      ((machRun (matKernels Int) iFrame
            ⟨2, 1, .c64, fun _ _ => (matKernels Int).zero⟩).inp = iFrame ∧
        (∀ r c, (⟨2, 1, .c64, fun _ _ => (matKernels Int).zero⟩ :
            VisT (Mat2 Int)).data r c = (matKernels Int).zero) ∧
        (machRun (matKernels Int) iFrame
            ⟨2, 1, .c64, fun _ _ => (matKernels Int).zero⟩).out =
          predictBody (matKernels Int) iFrame
            ⟨2, 1, .c64, fun _ _ => (matKernels Int).zero⟩) :=
  ⟨rfl, predict_vis_frame (matKernels Int) iFrame .c64
    ⟨2, 1, .c64, fun _ _ => (matKernels Int).zero⟩ rfl⟩

/-- The dtype list the validation phase promotes over equals the dtype
list of the present typed tensors, in the same order. -/
theorem sig_pdtype_eq {V : Type} (cs : List Nat) (i : PInputs V) :
    pdtype (sigOf cs i).dde1_jones ++ pdtype (sigOf cs i).source_coh ++
      pdtype (sigOf cs i).dde2_jones ++ pdtype (sigOf cs i).die1_jones ++
      pdtype (sigOf cs i).base_vis ++ pdtype (sigOf cs i).die2_jones =
      presentDtypes i := by
  rcases hdde : i.dde_jones with _ | p <;>
    rcases hcoh : i.source_coh with _ | c <;>
    rcases hdie : i.die_jones with _ | g <;>
    rcases hbv : i.base_vis with _ | b <;>
    simp [sigOf, pdtype, presentDtypes, hdde, hcoh, hdie, hbv]

/-- The channel extent the allocator reads, recovered from the call
signature alone. -/
def sigChanOf (s : Sig) : Nat :=
  match s.dde1_jones with
  | some t => t.shape.getD 3 0
  | none =>
    match s.source_coh with
    | some t => t.shape.getD 2 0
    | none =>
      match s.die1_jones with
      | some t => t.shape.getD 2 0
      | none => 0

/-- The allocator's channel extent is a function of the call signature. -/
theorem chanOf_sig {V : Type} (cs : List Nat) (i : PInputs V) :
    chanOf i = sigChanOf (sigOf cs i) := by
  rcases hdde : i.dde_jones with _ | p <;>
    rcases hcoh : i.source_coh with _ | c <;>
    rcases hdie : i.die_jones with _ | g <;>
    simp [sigOf, chanOf, sigChanOf, hdde, hcoh, hdie,
      ddeShape, cohShape, dieShape]

/-- Presence flags of the signature agree with the typed presence flags. -/
theorem sig_presence {V : Type} (cs : List Nat) (i : PInputs V) :
    (sigOf cs i).dde1_jones.isSome = i.dde_jones.isSome ∧
      (sigOf cs i).source_coh.isSome = i.source_coh.isSome ∧
      (sigOf cs i).dde2_jones.isSome = i.dde_jones.isSome ∧
      (sigOf cs i).die1_jones.isSome = i.die_jones.isSome ∧
      (sigOf cs i).die2_jones.isSome = i.die_jones.isSome := by
  refine ⟨?_, ?_, ?_, ?_, ?_⟩ <;> simp [sigOf, Option.isSome_map']

/-- Successful validation of a typed call implies one of the three
shape-carrying groups is present. -/
theorem validate_sigOf_ok_presence {V : Type} (cs : List Nat)
    (i : PInputs V) (jt : JonesTy) (dt : Dtype)
    (h : validate (sigOf cs i) = .ok (jt, dt)) :
    i.dde_jones.isSome = true ∨ i.source_coh.isSome = true ∨
      i.die_jones.isSome = true := by
  have hp5 := validate_ok_presence _ _ _ h
  obtain ⟨s1, s2, s3, s4, s5⟩ := sig_presence cs i
  rcases hp5 with h' | h' | h' | h' | h'
  · exact Or.inl (s1 ▸ h')
  · exact Or.inr (Or.inl (s2 ▸ h'))
  · exact Or.inl (s3 ▸ h')
  · exact Or.inr (Or.inr (s4 ▸ h'))
  · exact Or.inr (Or.inr (s5 ▸ h'))

/-- A successful validation returns exactly the promoted dtype of the six
optional arguments. -/
theorem validate_ok_dtype (s : Sig) (jt : JonesTy) (dt : Dtype)
    (h : validate s = .ok (jt, dt)) :
    resultType (pdtype s.dde1_jones ++ pdtype s.source_coh ++
      pdtype s.dde2_jones ++ pdtype s.die1_jones ++ pdtype s.base_vis ++
      pdtype s.die2_jones) = some dt := by
  unfold validate at h
  repeat' split at h
  all_goals
    first
    | exact Except.noConfusion h
    | (cases Except.ok.inj h
       assumption)

/-- The returned array's extents and dtype as functions of the inputs:
rows from `time_index`, channels and correlations from the priority
tensor, dtype from the promotion over present tensors. -/
theorem predict_vis_ok_meta {V : Type} (cs : List Nat) (K : Kernels V)
    (i : PInputs V) (o : VisT V) (h : predict_vis cs K i = .ok o) :
    o.nrow = i.nrow ∧ o.nchan = chanOf i ∧ o.dtype = outDtypeOf i := by
  unfold predict_vis at h
  cases hv : validate (sigOf cs i) with
  | error e =>
    rw [hv] at h
    exact Except.noConfusion h
  | ok p =>
    obtain ⟨jt, dt⟩ := p
    rw [hv] at h
    have hpres := validate_sigOf_ok_presence cs i jt dt hv
    have h2 : (match output K i dt with
        | none => Except.error PErr.insufficientInputs
        | some out0 => Except.ok (predictBody K i out0)) = Except.ok o := h
    rw [output_eq K i dt hpres] at h2
    have h3 : Except.ok (predictBody K i
        ⟨i.nrow, chanOf i, dt, fun _ _ => K.zero⟩) = Except.ok o := h2
    have h4 := Except.ok.inj h3
    subst h4
    have hdt : dt = outDtypeOf i := by
      have hd := validate_ok_dtype _ _ _ hv
      rw [sig_pdtype_eq] at hd
      simp [outDtypeOf, hd]
    refine ⟨(predictBody_meta _ _ _).1, (predictBody_meta _ _ _).2.1, ?_⟩
    exact ((predictBody_meta _ _ _).2.2).trans hdt

/-- C9: two calls whose signatures (shapes, dtypes, presence pattern and
row count) coincide produce results of identical shape and dtype, whatever
the element values are; on success the output rows come from `time_index`,
the channels from the antenna terms, else `source_coh`, else the die
terms, and the dtype is the promotion over all present tensors. -/
theorem predict_vis_alloc_idempotent {V : Type} (cs : List Nat)
    (K : Kernels V) (i1 i2 : PInputs V) (hsig : sigOf cs i1 = sigOf cs i2) :
    (predict_vis cs K i1).map (fun o => (o.nrow, o.nchan, o.dtype)) =
      (predict_vis cs K i2).map (fun o => (o.nrow, o.nchan, o.dtype)) ∧
      ∀ (o : VisT V), predict_vis cs K i1 = .ok o →
        o.nrow = i1.nrow ∧ o.nchan = chanOf i1 ∧ o.dtype = outDtypeOf i1 := by
  constructor
  · have hrow12 : i1.nrow = i2.nrow := congrArg Sig.nrow hsig
    have hchan12 : chanOf i1 = chanOf i2 := by
      rw [chanOf_sig cs i1, chanOf_sig cs i2, hsig]
    unfold predict_vis
    rw [hsig]
    cases hv : validate (sigOf cs i2) with
    | error e => rfl
    | ok p =>
      obtain ⟨jt, dt⟩ := p
      have hv1 : validate (sigOf cs i1) = .ok (jt, dt) := by
        rw [hsig]
        exact hv
      have hpres2 := validate_sigOf_ok_presence cs i2 jt dt hv
      have hpres1 := validate_sigOf_ok_presence cs i1 jt dt hv1
      show Except.map (fun o => (o.nrow, o.nchan, o.dtype))
          (match output K i1 dt with
            | none => Except.error PErr.insufficientInputs
            | some out0 => Except.ok (predictBody K i1 out0)) =
        Except.map (fun o => (o.nrow, o.nchan, o.dtype))
          (match output K i2 dt with
            | none => Except.error PErr.insufficientInputs
            | some out0 => Except.ok (predictBody K i2 out0))
      rw [output_eq K i1 dt hpres1, output_eq K i2 dt hpres2]
      show Except.ok ((predictBody K i1
            ⟨i1.nrow, chanOf i1, dt, fun _ _ => K.zero⟩).nrow,
          (predictBody K i1
            ⟨i1.nrow, chanOf i1, dt, fun _ _ => K.zero⟩).nchan,
          (predictBody K i1
            ⟨i1.nrow, chanOf i1, dt, fun _ _ => K.zero⟩).dtype) =
        Except.ok ((predictBody K i2
            ⟨i2.nrow, chanOf i2, dt, fun _ _ => K.zero⟩).nrow,
          (predictBody K i2
            ⟨i2.nrow, chanOf i2, dt, fun _ _ => K.zero⟩).nchan,
          (predictBody K i2
            ⟨i2.nrow, chanOf i2, dt, fun _ _ => K.zero⟩).dtype)
      obtain ⟨m1, m2, m3⟩ := predictBody_meta K i1
        ⟨i1.nrow, chanOf i1, dt, fun _ _ => K.zero⟩
      obtain ⟨n1, n2, n3⟩ := predictBody_meta K i2
        ⟨i2.nrow, chanOf i2, dt, fun _ _ => K.zero⟩
      rw [m1, m2, m3, n1, n2, n3]
      rw [show (⟨i1.nrow, chanOf i1, dt, fun _ _ => K.zero⟩ :
          VisT V).nrow = i1.nrow from rfl]
      rw [hrow12, hchan12]
  · intro o h
    exact predict_vis_ok_meta cs K i1 o h

/-- First call of the C9 witness pair: `source_coh`-only, one set of
element values. -/
def iSame1 : PInputs (Mat2 Int) where
  nrow := 2
  time_index := fun r => r
  antenna1 := fun _ => 0
  antenna2 := fun _ => 1
  dde_jones := none
  source_coh := some ⟨1, 2, 3, .c128, fun s r f => ⟨s, r, f, 1⟩⟩
  die_jones := none
  base_vis := none

/-- Second call of the C9 witness pair: identical shapes and dtypes,
different element values and a different time column. -/
def iSame2 : PInputs (Mat2 Int) where
  nrow := 2
  time_index := fun r => r + 7
  antenna1 := fun _ => 0
  antenna2 := fun _ => 1
  dde_jones := none
  source_coh := some ⟨1, 2, 3, .c128, fun s r f => ⟨9 * s + 1, r + f, 5, 3⟩⟩
  die_jones := none
  base_vis := none

/-- Witness for C9 at two concrete value-different, shape-identical
calls. -/
theorem predict_vis_alloc_idempotent_witness :
    sigOf [2, 2] iSame1 = sigOf [2, 2] iSame2 ∧
      ((predict_vis [2, 2] (matKernels Int) iSame1).map
          (fun o => (o.nrow, o.nchan, o.dtype)) =
        (predict_vis [2, 2] (matKernels Int) iSame2).map
          (fun o => (o.nrow, o.nchan, o.dtype)) ∧
        ∀ (o : VisT (Mat2 Int)),
          predict_vis [2, 2] (matKernels Int) iSame1 = .ok o →
          o.nrow = iSame1.nrow ∧ o.nchan = chanOf iSame1 ∧
            o.dtype = outDtypeOf iSame1) :=
  ⟨rfl, predict_vis_alloc_idempotent [2, 2] (matKernels Int) iSame1 iSame2 rfl⟩

section ContractionMat

variable {R : Type} [CommRing R] [StarRing R]

/-- Entry value of the coherency summation for any presence combination of
the antenna pair and the baseline coherency, in the 2x2 world. -/
theorem sum_entry_mat_cases (i : PInputs (Mat2 R)) (nsrc nchan : Nat)
    (hdde : ∀ p, i.dde_jones = some p → p.1.nsrc = nsrc ∧ p.1.nchan = nchan)
    (hcoh : ∀ c, i.source_coh = some c →
      c.nsrc = nsrc ∧ c.nrow = i.nrow ∧ c.nchan = nchan)
    (tmin : Int) (out : VisT (Mat2 R)) (r f : Nat)
    (hr : r < i.nrow) (hf : f < nchan) :
    ((sum_coherencies (matKernels R) i.nrow i.time_index i.antenna1
        i.antenna2 i.dde_jones i.source_coh tmin out).data r f).toM =
      (out.data r f).toM +
        (match i.dde_jones, i.source_coh with
          | some a, some x => ∑ s ∈ Finset.range nsrc,
              (a.1.data s (i.time_index r - tmin) (i.antenna1 r) f).toM *
                (x.data s r f).toM *
                conjE (a.2.data s (i.time_index r - tmin) (i.antenna2 r) f).toM
          | some a, none => ∑ s ∈ Finset.range nsrc,
              (a.1.data s (i.time_index r - tmin) (i.antenna1 r) f).toM *
                conjE (a.2.data s (i.time_index r - tmin) (i.antenna2 r) f).toM
          | none, some x => ∑ s ∈ Finset.range nsrc, (x.data s r f).toM
          | none, none => 0) := by
  rcases h1 : i.dde_jones with _ | ⟨a1j, a2j⟩ <;>
    rcases h2 : i.source_coh with _ | blj
  · rw [sum_coherencies]
    exact (add_zero _).symm
  · obtain ⟨hxs, hxr, hxc⟩ := hcoh blj h2
    rw [sumbl_entry_mat i.nrow i.time_index i.antenna1 i.antenna2 blj tmin
      out r f (by rw [hxr]; exact hr) (by rw [hxc]; exact hf), hxs]
  · obtain ⟨has, hac⟩ := hdde (a1j, a2j) h1
    rw [sum2_entry_mat i.nrow i.time_index i.antenna1 i.antenna2 a1j a2j tmin
      out r f hr (by rw [hac]; exact hf), has]
  · obtain ⟨has, hac⟩ := hdde (a1j, a2j) h1
    rw [sum3_entry_mat i.nrow i.time_index i.antenna1 i.antenna2 a1j a2j blj
      tmin out r f hr (by rw [hac]; exact hf), has]

/-- Entry value of the base-visibility accumulation for either presence of
`base_vis`, in the 2x2 world. -/
theorem add_entry_mat_cases (i : PInputs (Mat2 R)) (nchan : Nat)
    (mid : VisT (Mat2 R)) (hmr : mid.nrow = i.nrow) (hmc : mid.nchan = nchan)
    (r f : Nat) (hr : r < i.nrow) (hf : f < nchan) :
    ((add_coh (matKernels R) i.base_vis mid).data r f).toM =
      (mid.data r f).toM +
        (match i.base_vis with
          | some b => (b.data r f).toM
          | none => 0) := by
  rcases h1 : i.base_vis with _ | bv
  · rw [add_coh]
    exact (add_zero _).symm
  · exact add_entry_mat bv mid r f (by rw [hmr]; exact hr)
      (by rw [hmc]; exact hf)

/-- Entry value of the DIE application for either presence of the die
pair, in the 2x2 world: an absent pair acts as the identity sandwich. -/
theorem dies_entry_mat_cases (i : PInputs (Mat2 R)) (nchan : Nat)
    (tmin : Int) (mid : VisT (Mat2 R)) (hmc : mid.nchan = nchan)
    (r c : Nat) (hr : r < i.nrow) (hc : c < nchan) :
    ((apply_dies (matKernels R) i.nrow i.time_index i.antenna1 i.antenna2
        i.die_jones tmin mid).data r c).toM =
      (match i.die_jones with
        | some g => (g.1.data (i.time_index r - tmin) (i.antenna1 r) c).toM
        | none => 1) *
        (mid.data r c).toM *
        conjE (match i.die_jones with
          | some g => (g.2.data (i.time_index r - tmin) (i.antenna2 r) c).toM
          | none => 1) := by
  rcases h1 : i.die_jones with _ | ⟨g1, g2⟩
  · rw [apply_dies, conjE_one, one_mul, mul_one]
  · exact dies_entry_mat i.nrow i.time_index i.antenna1 i.antenna2 g1 g2 tmin
      mid r c hr (by rw [hmc]; exact hc)

end ContractionMat

section ContractionVec

variable {R : Type} [CommRing R] [StarRing R]

/-- Entry value of the coherency summation for any presence combination of
the antenna pair and the baseline coherency, in the scalar world. -/
theorem sum_entry_vec_cases (ncorr : Nat) (i : PInputs (Nat → R))
    (nsrc nchan : Nat)
    (hdde : ∀ p, i.dde_jones = some p → p.1.nsrc = nsrc ∧ p.1.nchan = nchan)
    (hcoh : ∀ c, i.source_coh = some c →
      c.nsrc = nsrc ∧ c.nrow = i.nrow ∧ c.nchan = nchan)
    (tmin : Int) (out : VisT (Nat → R)) (r f cc : Nat)
    (hr : r < i.nrow) (hf : f < nchan) (hcc : cc < ncorr) :
    ((sum_coherencies (vecKernels R ncorr) i.nrow i.time_index i.antenna1
        i.antenna2 i.dde_jones i.source_coh tmin out).data r f) cc =
      out.data r f cc +
        (match i.dde_jones, i.source_coh with
          | some a, some x => ∑ s ∈ Finset.range nsrc,
              a.1.data s (i.time_index r - tmin) (i.antenna1 r) f cc *
                x.data s r f cc *
                star (a.2.data s (i.time_index r - tmin) (i.antenna2 r) f cc)
          | some a, none => ∑ s ∈ Finset.range nsrc,
              a.1.data s (i.time_index r - tmin) (i.antenna1 r) f cc *
                star (a.2.data s (i.time_index r - tmin) (i.antenna2 r) f cc)
          | none, some x => ∑ s ∈ Finset.range nsrc, x.data s r f cc
          | none, none => 0) := by
  rcases h1 : i.dde_jones with _ | ⟨a1j, a2j⟩ <;>
    rcases h2 : i.source_coh with _ | blj
  · rw [sum_coherencies]
    exact (add_zero _).symm
  · obtain ⟨hxs, hxr, hxc⟩ := hcoh blj h2
    rw [sumbl_entry_vec ncorr i.nrow i.time_index i.antenna1 i.antenna2 blj
      tmin out r f cc (by rw [hxr]; exact hr) (by rw [hxc]; exact hf) hcc,
      hxs]
  · obtain ⟨has, hac⟩ := hdde (a1j, a2j) h1
    rw [sum2_entry_vec ncorr i.nrow i.time_index i.antenna1 i.antenna2 a1j
      a2j tmin out r f cc hr (by rw [hac]; exact hf) hcc, has]
  · obtain ⟨has, hac⟩ := hdde (a1j, a2j) h1
    rw [sum3_entry_vec ncorr i.nrow i.time_index i.antenna1 i.antenna2 a1j
      a2j blj tmin out r f cc hr (by rw [hac]; exact hf) hcc, has]

/-- Entry value of the base-visibility accumulation for either presence of
`base_vis`, in the scalar world. -/
theorem add_entry_vec_cases (ncorr : Nat) (i : PInputs (Nat → R))
    (nchan : Nat) (mid : VisT (Nat → R)) (hmr : mid.nrow = i.nrow)
    (hmc : mid.nchan = nchan) (r f cc : Nat)
    (hr : r < i.nrow) (hf : f < nchan) (hcc : cc < ncorr) :
    ((add_coh (vecKernels R ncorr) i.base_vis mid).data r f) cc =
      mid.data r f cc +
        (match i.base_vis with
          | some b => b.data r f cc
          | none => 0) := by
  rcases h1 : i.base_vis with _ | bv
  · rw [add_coh]
    exact (add_zero _).symm
  · exact add_entry_vec ncorr bv mid r f cc (by rw [hmr]; exact hr)
      (by rw [hmc]; exact hf) hcc

/-- Entry value of the DIE application for either presence of the die
pair, in the scalar world: an absent pair acts as multiplication by 1 with
conjugated 1. -/
theorem dies_entry_vec_cases (ncorr : Nat) (i : PInputs (Nat → R))
    (nchan : Nat) (tmin : Int) (mid : VisT (Nat → R))
    (hmc : mid.nchan = nchan) (r c cc : Nat)
    (hr : r < i.nrow) (hc : c < nchan) (hcc : cc < ncorr) :
    ((apply_dies (vecKernels R ncorr) i.nrow i.time_index i.antenna1
        i.antenna2 i.die_jones tmin mid).data r c) cc =
      (match i.die_jones with
        | some g => g.1.data (i.time_index r - tmin) (i.antenna1 r) c cc
        | none => 1) *
        mid.data r c cc *
        star (match i.die_jones with
          | some g => g.2.data (i.time_index r - tmin) (i.antenna2 r) c cc
          | none => 1) := by
  rcases h1 : i.die_jones with _ | ⟨g1, g2⟩
  · rw [apply_dies, star_one, one_mul, mul_one]
  · exact dies_entry_vec ncorr i.nrow i.time_index i.antenna1 i.antenna2 g1
      g2 tmin mid r c cc hr (by rw [hmc]; exact hc) hcc

end ContractionVec

/-- C1 (amended): for every valid call, each output entry equals the
contraction `G1 * (sum_s A1 * X * conj(A2) + B) * conj(G2)` where `t` is
the rebased time index of the row, an absent group is replaced by the
identity (the identity matrix for the `(2, 2)` classification, the scalar
1 for the `(1,)`/`(2,)` classifications), an absent `B` by zero, and the
conjugation applied to the `A2` and `G2` factors is elementwise, without
transposition.  Stated for both correlation classifications. -/
theorem predict_vis_contraction :
    (∀ (R : Type) [CommRing R] [StarRing R] (i : PInputs (Mat2 R))
        (nsrc nchan : Nat),
        (i.dde_jones.isSome = true ∨ i.source_coh.isSome = true ∨
          i.die_jones.isSome = true) →
        (∀ p, i.dde_jones = some p → p.1.nsrc = nsrc ∧ p.2.nsrc = nsrc ∧
          p.1.nchan = nchan ∧ p.2.nchan = nchan) →
        (∀ c, i.source_coh = some c → c.nsrc = nsrc ∧ c.nrow = i.nrow ∧
          c.nchan = nchan) →
        (∀ g, i.die_jones = some g → g.1.nchan = nchan ∧
          g.2.nchan = nchan) →
        (∀ b, i.base_vis = some b → b.nrow = i.nrow ∧ b.nchan = nchan) →
        ∃ o, predict_vis [2, 2] (matKernels R) i = .ok o ∧
          o.nrow = i.nrow ∧ o.nchan = nchan ∧
          ∀ r, r < i.nrow → ∀ f, f < nchan →
            (o.data r f).toM =
              (match i.die_jones with
                | some g => (g.1.data
                    (i.time_index r - npMin i.time_index i.nrow)
                    (i.antenna1 r) f).toM
                | none => 1) *
              ((match i.dde_jones, i.source_coh with
                | some a, some x => ∑ s ∈ Finset.range nsrc,
                    (a.1.data s (i.time_index r - npMin i.time_index i.nrow)
                      (i.antenna1 r) f).toM *
                    (x.data s r f).toM *
                    conjE (a.2.data s
                      (i.time_index r - npMin i.time_index i.nrow)
                      (i.antenna2 r) f).toM
                | some a, none => ∑ s ∈ Finset.range nsrc,
                    (a.1.data s (i.time_index r - npMin i.time_index i.nrow)
                      (i.antenna1 r) f).toM * 1 *
                    conjE (a.2.data s
                      (i.time_index r - npMin i.time_index i.nrow)
                      (i.antenna2 r) f).toM
                | none, some x => ∑ s ∈ Finset.range nsrc,
                    1 * (x.data s r f).toM * conjE 1
                | none, none => 0) +
               (match i.base_vis with
                | some b => (b.data r f).toM
                | none => 0)) *
              conjE (match i.die_jones with
                | some g => (g.2.data
                    (i.time_index r - npMin i.time_index i.nrow)
                    (i.antenna2 r) f).toM
                | none => 1)) ∧
      (∀ (R : Type) [CommRing R] [StarRing R] (ncorr : Nat)
          (i : PInputs (Nat → R)) (nsrc nchan : Nat),
          (i.dde_jones.isSome = true ∨ i.source_coh.isSome = true ∨
            i.die_jones.isSome = true) →
          (∀ p, i.dde_jones = some p → p.1.nsrc = nsrc ∧ p.2.nsrc = nsrc ∧
            p.1.nchan = nchan ∧ p.2.nchan = nchan) →
          (∀ c, i.source_coh = some c → c.nsrc = nsrc ∧ c.nrow = i.nrow ∧
            c.nchan = nchan) →
          (∀ g, i.die_jones = some g → g.1.nchan = nchan ∧
            g.2.nchan = nchan) →
          (∀ b, i.base_vis = some b → b.nrow = i.nrow ∧ b.nchan = nchan) →
          ∃ o, predict_vis [ncorr] (vecKernels R ncorr) i = .ok o ∧
            o.nrow = i.nrow ∧ o.nchan = nchan ∧
            ∀ r, r < i.nrow → ∀ f, f < nchan → ∀ cc, cc < ncorr →
              o.data r f cc =
                (match i.die_jones with
                  | some g => g.1.data
                      (i.time_index r - npMin i.time_index i.nrow)
                      (i.antenna1 r) f cc
                  | none => 1) *
                ((match i.dde_jones, i.source_coh with
                  | some a, some x => ∑ s ∈ Finset.range nsrc,
                      a.1.data s (i.time_index r - npMin i.time_index i.nrow)
                        (i.antenna1 r) f cc *
                      x.data s r f cc *
                      star (a.2.data s
                        (i.time_index r - npMin i.time_index i.nrow)
                        (i.antenna2 r) f cc)
                  | some a, none => ∑ s ∈ Finset.range nsrc,
                      a.1.data s (i.time_index r - npMin i.time_index i.nrow)
                        (i.antenna1 r) f cc * 1 *
                      star (a.2.data s
                        (i.time_index r - npMin i.time_index i.nrow)
                        (i.antenna2 r) f cc)
                  | none, some x => ∑ s ∈ Finset.range nsrc,
                      1 * x.data s r f cc * star (1 : R)
                  | none, none => 0) +
                 (match i.base_vis with
                  | some b => b.data r f cc
                  | none => 0)) *
                star (match i.die_jones with
                  | some g => g.2.data
                      (i.time_index r - npMin i.time_index i.nrow)
                      (i.antenna2 r) f cc
                  | none => 1)) := by
  constructor
  · intro R _ _ i nsrc nchan hpres hdde hcoh hdie hbv
    have hval := validate_sigOf_two i 2 2 hpres
    have hout := output_eq (matKernels R) i (outDtypeOf i) hpres
    have hchan : chanOf i = nchan := by
      rcases h1 : i.dde_jones with _ | p
      · rcases h2 : i.source_coh with _ | c
        · rcases h3 : i.die_jones with _ | g
          · rcases hpres with h | h | h <;> rw [h1] at * <;> rw [h2] at * <;>
              rw [h3] at * <;> simp_all
          · simp [chanOf, h1, h2, h3, (hdie g h3).1]
        · simp [chanOf, h1, h2, (hcoh c h2).2.2]
      · simp [chanOf, h1, (hdde p h1).2.2.1]
    refine ⟨predictBody (matKernels R) i
      ⟨i.nrow, chanOf i, outDtypeOf i, fun _ _ => (matKernels R).zero⟩,
      ?_, ?_, ?_, ?_⟩
    · unfold predict_vis
      simp only [hval, hout]
    · exact (predictBody_meta _ _ _).1
    · exact ((predictBody_meta _ _ _).2.1).trans hchan
    · intro r hr f hf
      simp only [predictBody]
      have hmetaS := sum_coherencies_meta (matKernels R) i.nrow i.time_index
        i.antenna1 i.antenna2 i.dde_jones i.source_coh
        (npMin i.time_index i.nrow)
        ⟨i.nrow, chanOf i, outDtypeOf i, fun _ _ => (matKernels R).zero⟩
      have hmetaA := add_coh_meta (matKernels R) i.base_vis
        (sum_coherencies (matKernels R) i.nrow i.time_index i.antenna1
          i.antenna2 i.dde_jones i.source_coh (npMin i.time_index i.nrow)
          ⟨i.nrow, chanOf i, outDtypeOf i, fun _ _ => (matKernels R).zero⟩)
      rw [dies_entry_mat_cases i nchan (npMin i.time_index i.nrow) _
        (hmetaA.2.1.trans (hmetaS.2.1.trans hchan)) r f hr hf]
      rw [add_entry_mat_cases i nchan _ hmetaS.1
        (hmetaS.2.1.trans hchan) r f hr hf]
      rw [sum_entry_mat_cases i nsrc nchan
        (fun p hp => ⟨(hdde p hp).1, (hdde p hp).2.2.1⟩) hcoh
        (npMin i.time_index i.nrow) _ r f hr hf]
      rw [show ((⟨i.nrow, chanOf i, outDtypeOf i,
          fun _ _ => (matKernels R).zero⟩ : VisT (Mat2 R)).data r f).toM =
        (0 : Matrix (Fin 2) (Fin 2) R) from matKernels_zero_toM, zero_add]
      rcases i.dde_jones with _ | a <;> rcases i.source_coh with _ | x <;>
        simp [conjE_one]
  · intro R _ _ ncorr i nsrc nchan hpres hdde hcoh hdie hbv
    have hval := validate_sigOf_one i ncorr hpres
    have hout := output_eq (vecKernels R ncorr) i (outDtypeOf i) hpres
    have hchan : chanOf i = nchan := by
      rcases h1 : i.dde_jones with _ | p
      · rcases h2 : i.source_coh with _ | c
        · rcases h3 : i.die_jones with _ | g
          · rcases hpres with h | h | h <;> rw [h1] at * <;> rw [h2] at * <;>
              rw [h3] at * <;> simp_all
          · simp [chanOf, h1, h2, h3, (hdie g h3).1]
        · simp [chanOf, h1, h2, (hcoh c h2).2.2]
      · simp [chanOf, h1, (hdde p h1).2.2.1]
    refine ⟨predictBody (vecKernels R ncorr) i
      ⟨i.nrow, chanOf i, outDtypeOf i, fun _ _ => (vecKernels R ncorr).zero⟩,
      ?_, ?_, ?_, ?_⟩
    · unfold predict_vis
      simp only [hval, hout]
    · exact (predictBody_meta _ _ _).1
    · exact ((predictBody_meta _ _ _).2.1).trans hchan
    · intro r hr f hf cc hcc
      simp only [predictBody]
      have hmetaS := sum_coherencies_meta (vecKernels R ncorr) i.nrow
        i.time_index i.antenna1 i.antenna2 i.dde_jones i.source_coh
        (npMin i.time_index i.nrow)
        ⟨i.nrow, chanOf i, outDtypeOf i, fun _ _ => (vecKernels R ncorr).zero⟩
      have hmetaA := add_coh_meta (vecKernels R ncorr) i.base_vis
        (sum_coherencies (vecKernels R ncorr) i.nrow i.time_index i.antenna1
          i.antenna2 i.dde_jones i.source_coh (npMin i.time_index i.nrow)
          ⟨i.nrow, chanOf i, outDtypeOf i,
            fun _ _ => (vecKernels R ncorr).zero⟩)
      rw [dies_entry_vec_cases ncorr i nchan (npMin i.time_index i.nrow) _
        (hmetaA.2.1.trans (hmetaS.2.1.trans hchan)) r f cc hr hf hcc]
      rw [add_entry_vec_cases ncorr i nchan _ hmetaS.1
        (hmetaS.2.1.trans hchan) r f cc hr hf hcc]
      rw [sum_entry_vec_cases ncorr i nsrc nchan
        (fun p hp => ⟨(hdde p hp).1, (hdde p hp).2.2.1⟩) hcoh
        (npMin i.time_index i.nrow) _ r f cc hr hf hcc]
      rw [show ((⟨i.nrow, chanOf i, outDtypeOf i,
          fun _ _ => (vecKernels R ncorr).zero⟩ :
            VisT (Nat → R)).data r f) cc = (0 : R) from rfl, zero_add]
      rcases i.dde_jones with _ | a <;> rcases i.source_coh with _ | x <;>
        simp

/-- Antenna-1 DDE term of the C1 witness call. -/
def wA1 : DDET (Mat2 Int) := ⟨1, 1, 1, 1, .c128, fun _ _ _ _ => ⟨1, 2, 3, 4⟩⟩

/-- Antenna-2 DDE term of the C1 witness call. -/
def wA2 : DDET (Mat2 Int) := ⟨1, 1, 1, 1, .c128, fun _ _ _ _ => ⟨0, 1, 1, 0⟩⟩

/-- Source coherency of the C1 witness call. -/
def wX : CohT (Mat2 Int) := ⟨1, 1, 1, .c128, fun _ _ _ => ⟨2, 0, 0, 2⟩⟩

/-- Antenna-1 DIE term of the C1 witness call. -/
def wG1 : DIET (Mat2 Int) := ⟨1, 1, 1, .c128, fun _ _ _ => ⟨1, 1, 0, 1⟩⟩

/-- Antenna-2 DIE term of the C1 witness call. -/
def wG2 : DIET (Mat2 Int) := ⟨1, 1, 1, .c128, fun _ _ _ => ⟨1, 0, 2, 1⟩⟩

/-- Base visibility of the C1 witness call. -/
def wB : VisT (Mat2 Int) := ⟨1, 1, .c128, fun _ _ => ⟨1, 0, 0, 1⟩⟩

/-- The C1 witness call: all six optional tensors present, with a time
index that starts at 5 to exercise the rebasing. -/
def iFull : PInputs (Mat2 Int) where
  nrow := 1
  time_index := fun _ => 5
  antenna1 := fun _ => 0
  antenna2 := fun _ => 0
  dde_jones := some (wA1, wA2)
  source_coh := some wX
  die_jones := some (wG1, wG2)
  base_vis := some wB

/-- Witness for the amended C1 at a concrete all-present call. -/
theorem predict_vis_contraction_witness :
    iFull.dde_jones.isSome = true ∧
      ∃ o, predict_vis [2, 2] (matKernels Int) iFull = .ok o ∧
        o.nrow = 1 ∧ o.nchan = 1 ∧
        ∀ r, r < 1 → ∀ f, f < 1 →
          (o.data r f).toM =
            (wG1.data (iFull.time_index r - npMin iFull.time_index 1)
              (iFull.antenna1 r) f).toM *
            ((∑ s ∈ Finset.range 1,
              (wA1.data s (iFull.time_index r - npMin iFull.time_index 1)
                (iFull.antenna1 r) f).toM *
              (wX.data s r f).toM *
              conjE (wA2.data s
                (iFull.time_index r - npMin iFull.time_index 1)
                (iFull.antenna2 r) f).toM) +
             (wB.data r f).toM) *
            conjE (wG2.data (iFull.time_index r - npMin iFull.time_index 1)
              (iFull.antenna2 r) f).toM :=
  ⟨rfl,
    predict_vis_contraction.1 Int iFull 1 1 (Or.inl rfl)
      (fun p hp => by cases Option.some.inj hp; exact ⟨rfl, rfl, rfl, rfl⟩)
      (fun c hc => by cases Option.some.inj hc; exact ⟨rfl, rfl, rfl⟩)
      (fun g hg => by cases Option.some.inj hg; exact ⟨rfl, rfl⟩)
      (fun b hb => by cases Option.some.inj hb; exact ⟨rfl, rfl⟩)⟩

/-- The C1 counterexample call: only the DDE pair present, `a1` the
identity and `a2` the elementary matrix with a single 1 in the top-right
entry, which is not symmetric. -/
def iCex : PInputs (Mat2 Int) where
  nrow := 1
  time_index := fun _ => 0
  antenna1 := fun _ => 0
  antenna2 := fun _ => 0
  dde_jones := some (⟨1, 1, 1, 1, .c128, fun _ _ _ _ => ⟨1, 0, 0, 1⟩⟩,
                     ⟨1, 1, 1, 1, .c128, fun _ _ _ _ => ⟨0, 1, 0, 0⟩⟩)
  source_coh := none
  die_jones := none
  base_vis := none

/-- C1 counterexample: the code conjugates `a2` elementwise without
transposing.  At the concrete input the code produces the top-right
elementary matrix, while the claimed formula with the conjugate TRANSPOSE
`A2^H` produces the bottom-left elementary matrix, and the two differ. -/
theorem predict_vis_conjTranspose_cex :
    (predict_vis [2, 2] (matKernels Int) iCex).map (fun o => o.data 0 0) =
        Except.ok (Mat2.mk 0 1 0 0) ∧
      (1 : Matrix (Fin 2) (Fin 2) Int) *
          ((∑ s ∈ Finset.range 1,
            (Mat2.mk 1 0 0 1 : Mat2 Int).toM * 1 *
              Matrix.conjTranspose ((Mat2.mk 0 1 0 0 : Mat2 Int).toM)) + 0) *
          Matrix.conjTranspose (1 : Matrix (Fin 2) (Fin 2) Int) =
        (Mat2.mk 0 0 1 0 : Mat2 Int).toM ∧
      (Mat2.mk 0 1 0 0 : Mat2 Int).toM ≠ (Mat2.mk 0 0 1 0 : Mat2 Int).toM := by
  refine ⟨rfl, ?_, ?_⟩
  · ext i j
    fin_cases i <;> fin_cases j <;>
      simp [Mat2.toM, Matrix.mul_apply, Matrix.conjTranspose_apply,
        Fin.sum_univ_two] <;> decide
  · intro h
    exact absurd (congrFun (congrFun h 0) 1) (by decide)

/-- Witness for the amended C4 at a concrete mismatching signature. -/
theorem validate_classified_mismatch_witness :
    getJonesTypes "source_coh" sigMixedClassified.source_coh 4 5 =
        .ok .oneOrTwo ∧
      getJonesTypes "die1_jones" sigMixedClassified.die1_jones 4 5 =
        .ok .twoByTwo ∧
      validate sigMixedClassified = .error .corrMismatch :=
  ⟨rfl, rfl,
    validate_classified_mismatch sigMixedClassified rfl rfl
      .notPresent .oneOrTwo .notPresent .twoByTwo .twoByTwo
      rfl rfl rfl rfl rfl .oneOrTwo .twoByTwo (by decide) (by decide)
      (by decide)⟩

end Predict
